import Mathlib

/-!
Shallow embedding of the repair subsystem in `db/repair.cc` (LevelDB
`RepairDB` extended to multiple locality groups).  The per-LG class
`Repairer` and the coordinator `DBRepairer` are modelled as pure state
transformers; every filesystem interaction (directory listings, file
sizes, iterator contents, write results) is passed in explicitly as an
environment value, mirroring the calls the code makes through `Env`.
Functions from files outside this tree (db/filename.cc, db/dbformat.cc,
db/write_batch.cc, db/builder.cc) are modelled from the specification
and marked as such in their doc comments.
-/

namespace LevelDBRepair

/-- Status values of `leveldb::Status` as produced and tested by
`db/repair.cc` (`ok`, `Corruption`, `IOError`, `NotFound`,
`InvalidArgument`). -/
inductive Status where
  | ok : Status
  | corruption (msg : String) : Status
  | ioError (ctx : String) (msg : String) : Status
  | notFound (ctx : String) (msg : String) : Status
  | invalidArgument (ctx : String) (msg : String) : Status
  deriving DecidableEq

/-- `Status::ok()`. -/
def Status.isOk : Status → Bool
  | .ok => true
  | _ => false

/-- `Status::IsNotFound()`-style discriminator: does the status carry the
`NotFound` code? -/
def Status.isNotFoundCode : Status → Bool
  | .notFound _ _ => true
  | _ => false

/-- The file classification produced by `ParseFileName`
(the `FileType` enum of db/filename.h). -/
inductive FileType where
  | logFile : FileType
  | tableFile : FileType
  | descriptorFile : FileType
  | currentFile : FileType
  | tempFile : FileType
  deriving DecidableEq

/-- Strip a fixed head from a character list, if present. -/
def chopHead (headL l : List Char) : Option (List Char) :=
  if l.take headL.length = headL then some (l.drop headL.length) else none

/-- Strip a fixed tail from a character list, if present. -/
def chopTail (tailL l : List Char) : Option (List Char) :=
  if tailL.length ≤ l.length ∧ l.drop (l.length - tailL.length) = tailL then
    some (l.take (l.length - tailL.length))
  else none

/-- Value of a decimal digit character. -/
def decDigitVal (c : Char) : Option Nat :=
  if '0' ≤ c ∧ c ≤ '9' then some (c.toNat - 48) else none

/-- Value of a lowercase hexadecimal digit character. -/
def hexDigitVal (c : Char) : Option Nat :=
  if '0' ≤ c ∧ c ≤ '9' then some (c.toNat - 48)
  else if 'a' ≤ c ∧ c ≤ 'f' then some (c.toNat - 87) else none

/-- Parse a nonempty digit string in the given base. -/
def parseDigits (dval : Char → Option Nat) (base : Nat) (l : List Char) : Option Nat :=
  if l = [] then none
  else
    l.foldl
      (fun acc c =>
        match acc, dval c with
        | some a, some d => some (a * base + d)
        | _, _ => none)
      (some 0)

/-- Modelled from the spec: `ParseFileName` (db/filename.cc is not part of
this source tree).  Per the spec's file-layout section, the root directory
holds `CURRENT`, `MANIFEST-<n>` (decimal) and WAL files `<n>.log` with `n`
in lowercase hex; an LG subdirectory holds `CURRENT`, `MANIFEST-<n>` and
tables `<n>.sst` with `n` decimal; `<n>.dbtmp` is the transient descriptor
temp file.  Unrecognized names yield `none` and are ignored by the
repairers. -/
def parseFileName (f : String) : Option (Nat × FileType) :=
  if f = "CURRENT" then some (0, FileType.currentFile)
  else
    match chopHead "MANIFEST-".data f.data with
    | some rest => (parseDigits decDigitVal 10 rest).map (fun n => (n, FileType.descriptorFile))
    | none =>
      match chopTail ".log".data f.data with
      | some stem => (parseDigits hexDigitVal 16 stem).map (fun n => (n, FileType.logFile))
      | none =>
        match chopTail ".sst".data f.data with
        | some stem => (parseDigits decDigitVal 10 stem).map (fun n => (n, FileType.tableFile))
        | none =>
          match chopTail ".dbtmp".data f.data with
          | some stem => (parseDigits decDigitVal 10 stem).map (fun n => (n, FileType.tempFile))
          | none => none

/-- Modelled from the spec: an internal key is a `(user_key, sequence,
kind)` tuple (db/dbformat.h is not part of this source tree). -/
structure ParsedInternalKey where
  userKey : String
  sequence : Nat
  kind : Nat
  deriving DecidableEq

/-- Modelled from the spec: the raw bytes a table iterator yields for one
key.  A raw key either carries a well-formed internal key or is garbage
that `ParseInternalKey` rejects. -/
inductive InternalKeyBytes where
  | valid (k : ParsedInternalKey) : InternalKeyBytes
  | garbage (bytes : String) : InternalKeyBytes
  deriving DecidableEq

/-- Modelled from the spec: `ParseInternalKey` (db/dbformat.cc), which
either decodes the key or fails. -/
def parseInternalKey : InternalKeyBytes → Option ParsedInternalKey
  | .valid k => some k
  | .garbage _ => none

/-- `true` when `ParseInternalKey` accepts the raw key. -/
def keyParses (k : InternalKeyBytes) : Bool :=
  (parseInternalKey k).isSome

/-- Modelled from the spec: one mutation of a write batch, tagged with the
locality-group id used by `SeperateLocalityGroup` to route it. -/
structure Mutation where
  lg : Nat
  payload : String
  deriving DecidableEq

/-- `FileMetaData` (db/version_edit.h) as used by the repairer: file
number, size, and the raw smallest/largest internal keys decoded by
`InternalKey::DecodeFrom`. -/
structure FileMetaData where
  number : Nat
  file_size : Nat
  smallest : InternalKeyBytes
  largest : InternalKeyBytes
  deriving DecidableEq

/-- `Repairer::TableInfo`: `FileMetaData` plus the largest sequence number
observed in the table (db/repair.cc lines 112-115). -/
structure TableInfo where
  meta : FileMetaData
  max_sequence : Nat
  deriving DecidableEq

/-- Environment of one `Repairer::ScanTable` call (db/repair.cc lines
345-389): the result of `Env::GetFileSize`, the raw keys the table-cache
iterator yields from first to last, and the iterator's final status. -/
structure ScanInput where
  fileSizeStatus : Status
  fileSize : Nat
  keys : List InternalKeyBytes
  iterStatus : Status
  deriving DecidableEq

/-- The loop variables of the `ScanTable` iteration (lines 347-374):
`counter`, `empty`, the running smallest/largest keys and the running
maximum sequence number. -/
structure ScanLoopState where
  counter : Nat
  empty : Bool
  smallest : InternalKeyBytes
  largest : InternalKeyBytes
  maxSeq : Nat
  deriving DecidableEq

/-- Initial loop state of `ScanTable`: `counter = 0`, `empty = true`,
`t->max_sequence = 0`, smallest/largest not yet decoded. -/
def scanInit : ScanLoopState :=
  { counter := 0, empty := true, smallest := .garbage "", largest := .garbage "",
    maxSeq := 0 }

/-- One iteration of the `ScanTable` loop (lines 355-374): a key that
fails `ParseInternalKey` is logged and skipped; a parseable key bumps the
counter, seeds `smallest` on the first hit, always refreshes `largest`,
and raises `max_sequence`. -/
def scanStep (s : ScanLoopState) (key : InternalKeyBytes) : ScanLoopState :=
  match parseInternalKey key with
  | none => s
  | some parsed =>
    { counter := s.counter + 1
      empty := false
      smallest := if s.empty then key else s.smallest
      largest := key
      maxSeq := if s.maxSeq < parsed.sequence then parsed.sequence else s.maxSeq }

/-- The final loop state of the `ScanTable` iteration over all keys. -/
def scanFinal (si : ScanInput) : ScanLoopState :=
  si.keys.foldl scanStep scanInit

/-- The status `ScanTable` computes after the loop (lines 375-381): the
iterator's error wins, then `Corruption("sst is empty")` when nothing
parsed, else `ok`. -/
def scanVerdict (si : ScanInput) : Status :=
  if (if si.iterStatus ≠ .ok then si.iterStatus else Status.ok) = Status.ok ∧
      (scanFinal si).empty = true then
    Status.corruption "sst is empty"
  else if si.iterStatus ≠ .ok then si.iterStatus else Status.ok

/-- `Repairer::ScanTable` (lines 345-389).  Fails with the `GetFileSize`
error, else with the iterator's error, else with
`Corruption("sst is empty")` when no key parsed; on success the
`TableInfo` carries the file size, first/last parseable keys and the
maximum sequence number. -/
def scanTable (si : ScanInput) (number : Nat) : Status × TableInfo :=
  if si.fileSizeStatus ≠ .ok then
    (si.fileSizeStatus,
     { meta := { number := number, file_size := 0, smallest := .garbage "",
                 largest := .garbage "" },
       max_sequence := 0 })
  else
    (scanVerdict si,
     { meta := { number := number, file_size := si.fileSize,
                 smallest := (scanFinal si).smallest, largest := (scanFinal si).largest },
       max_sequence := (scanFinal si).maxSeq })

/-- Modelled from the spec: `TableFileName` (db/filename.cc), `<n>.sst`
under the LG directory, `n` decimal. -/
def tableFileName (dbname : String) (number : Nat) : String :=
  dbname ++ "/" ++ Nat.repr number ++ ".sst"

/-- The per-LG repairer state (the fields of class `Repairer`,
db/repair.cc lines 117-134).  `archived` is a ghost trace of the file
names passed to `ArchiveFile` (which renames them into `lost/`); the
memtable is modelled as the list of mutations inserted into it. -/
structure LgState where
  dbname : String
  manifests : List String
  table_numbers : List Nat
  logs : List Nat
  tables : List TableInfo
  next_file_number : Nat
  mem : Option (List Mutation)
  max_sequence : Nat
  archived : List String
  deriving DecidableEq

/-- Constructor state of `Repairer` (lines 56-72): `next_file_number_(1)`,
`mem_(NULL)`, `max_sequence_(0)`, all lists empty. -/
def lgInit (dbname : String) : LgState :=
  { dbname := dbname, manifests := [], table_numbers := [], logs := [], tables := [],
    next_file_number := 1, mem := none, max_sequence := 0, archived := [] }

/-- `Repairer::ArchiveFile` (lines 450-469): move `dir/foo` to
`dir/lost/foo`; rename errors are logged and ignored.  The model records
the archived path in the ghost trace. -/
def archiveFile (st : LgState) (fname : String) : LgState :=
  { st with archived := st.archived ++ [fname] }

/-- One filename of the `Repairer::FindFiles` classification loop (lines
148-165): descriptors are collected by name; every other parsed number
advances `next_file_number_`; logs and tables are collected by number.
`bffn` stands for `BuildFullFileNumber` (db/filename.cc, outside this
source tree), applied to table numbers before they are stored. -/
def lgFindFilesLoop (bffn : Nat → Nat) (st : LgState) (f : String) : LgState :=
  match parseFileName f with
  | none => st
  | some (number, ty) =>
    if ty = FileType.descriptorFile then
      { st with manifests := st.manifests ++ [f] }
    else
      let st1 : LgState :=
        { st with next_file_number :=
            if number + 1 > st.next_file_number then number + 1 else st.next_file_number }
      if ty = FileType.logFile then { st1 with logs := st1.logs ++ [number] }
      else if ty = FileType.tableFile then
        { st1 with table_numbers := st1.table_numbers ++ [bffn number] }
      else st1

/-- `Repairer::FindFiles` (lines 136-167): propagate the `GetChildren`
error; fail with `IOError(dbname, "repair found no files")` on an empty
listing; otherwise classify every child. -/
def lgFindFiles (bffn : Nat → Nat) (childrenStatus : Status) (filenames : List String)
    (st : LgState) : Status × LgState :=
  if childrenStatus ≠ .ok then (childrenStatus, st)
  else if filenames = [] then (Status.ioError st.dbname "repair found no files", st)
  else (Status.ok, filenames.foldl (lgFindFilesLoop bffn) st)

/-- One table number of `Repairer::ExtractMetaData` (lines 323-343): scan
it; on failure archive the table file, on success keep the `TableInfo`
and raise the repairer's `max_sequence_`. -/
def extractMetaDataStep (scanF : Nat → ScanInput) (st : LgState) (number : Nat) : LgState :=
  let r := scanTable (scanF number) number
  if r.1 ≠ .ok then archiveFile st (tableFileName st.dbname number)
  else
    { st with tables := st.tables ++ [r.2],
              max_sequence :=
                if st.max_sequence < r.2.max_sequence then r.2.max_sequence
                else st.max_sequence }

/-- `Repairer::ExtractMetaData` (lines 323-343), folded over
`table_numbers_`. -/
def lgExtractMetaData (scanF : Nat → ScanInput) (st : LgState) : LgState :=
  st.table_numbers.foldl (extractMetaDataStep scanF) st

/-- `Repairer::AddTableMeta` (lines 305-321): scan the freshly built
table; on failure archive it, on success record the `TableInfo` and the
table number.  Unlike `ExtractMetaData` it does not touch
`max_sequence_`. -/
def lgAddTableMeta (scanF : Nat → ScanInput) (st : LgState) (number : Nat) :
    Status × LgState :=
  let r := scanTable (scanF number) number
  if r.1 ≠ .ok then (r.1, archiveFile st (tableFileName st.dbname number))
  else
    (r.1,
     { st with tables := st.tables ++ [r.2],
               table_numbers := st.table_numbers ++ [number] })

/-- `2^64`; sequence numbers and counts live in `uint64_t`. -/
def u64 : Nat := 18446744073709551616

/-- `seq + count - 1` in `uint64_t` arithmetic (wraps modulo `2^64`,
matching the C++ expression `batch_seq + count - 1`). -/
def seqPlusCountM1 (seq count : Nat) : Nat :=
  (seq + count + (u64 - 1)) % u64

/-- `Repairer::InsertMemTable` (lines 269-277): lazily create the
memtable, then set `max_sequence_ = batch_seq + Count(batch) - 1` and
insert the batch.  `WriteBatchInternal::InsertInto` (db/write_batch.cc,
outside this source tree) is modelled from the spec as appending the
batch's mutations to the in-memory buffer; `cnt` is `Count(batch)` of the
inserted batch.  The code's `assert(batch_seq > max_sequence_)` is the
property the monotonicity theorem establishes about every call site. -/
def lgInsertMemTable (st : LgState) (muts : List Mutation) (cnt : Nat) (batchSeq : Nat) :
    LgState :=
  let memOld := match st.mem with | none => [] | some m => m
  { st with mem := some (memOld ++ muts),
            max_sequence := seqPlusCountM1 batchSeq cnt }

/-- `Repairer::HasMemTable` (lines 278-280). -/
def lgHasMemTable (st : LgState) : Bool :=
  st.mem.isSome

/-- Outcome of one external `BuildTable` call (db/builder.cc, outside this
source tree): its status and the size of the file it produced. -/
structure BuildInput where
  buildStatus : Status
  fileSize : Nat
  deriving DecidableEq

/-- `Repairer::BuildTableFile` (lines 281-303): allocate
`next_file_number_++` as the new table's number, build the table from the
memtable through the external `BuildTable`, release the memtable, and
record the number in `table_numbers_` when the build succeeded with a
nonempty file.  Returns the build status, the allocated number and the
updated state. -/
def lgBuildTableFile (binput : BuildInput) (st : LgState) : Status × Nat × LgState :=
  let number := st.next_file_number
  let st1 : LgState := { st with next_file_number := st.next_file_number + 1, mem := none }
  if binput.buildStatus = .ok then
    if binput.fileSize > 0 then
      (binput.buildStatus, number, { st1 with table_numbers := st1.table_numbers ++ [number] })
    else (binput.buildStatus, number, st1)
  else (binput.buildStatus, number, st1)

/-- One `AddFile(level, number, file_size, smallest, largest)` entry of a
`VersionEdit` (db/version_edit.h). -/
structure AddFileEntry where
  level : Nat
  number : Nat
  file_size : Nat
  smallest : InternalKeyBytes
  largest : InternalKeyBytes
  deriving DecidableEq

/-- The `VersionEdit` fields the repairer sets (db/repair.cc lines
406-416). -/
structure VersionEdit where
  comparatorName : String
  logNumber : Nat
  nextFile : Nat
  lastSequence : Nat
  files : List AddFileEntry
  deriving DecidableEq

/-- The `max_sequence` computation of `Repairer::WriteDescriptor` (lines
399-404): fold the maximum of `tables_[i].max_sequence` starting from 0. -/
def seqMaxOfTables (tables : List TableInfo) : Nat :=
  tables.foldl (fun m t => if m < t.max_sequence then t.max_sequence else m) 0

/-- The `VersionEdit` that `Repairer::WriteDescriptor` assembles (lines
406-416): comparator name, `log_number = 0`,
`next_file = next_file_number_`, `last_sequence` the maximum over
`tables_`, and one level-0 `AddFile` per entry of `tables_`. -/
def buildEdit (cmpName : String) (st : LgState) : VersionEdit :=
  { comparatorName := cmpName
    logNumber := 0
    nextFile := st.next_file_number
    lastSequence := seqMaxOfTables st.tables
    files := st.tables.map (fun t =>
      { level := 0, number := t.meta.number, file_size := t.meta.file_size,
        smallest := t.meta.smallest, largest := t.meta.largest }) }

/-- Results of the filesystem steps of one `Repairer::WriteDescriptor`
call: `NewWritableFile(tmp)`, `log.AddRecord(record)`, `file->Close()`,
`RenameFile(tmp, descriptor)` and `SetCurrentFile`. -/
structure DescriptorEnv where
  newFileStatus : Status
  addRecordStatus : Status
  closeStatus : Status
  renameStatus : Status
  setCurrentStatus : Status
  deriving DecidableEq

/-- Observable outcome of `Repairer::WriteDescriptor`: the returned
status, the edit serialized into the temp file (when one was written),
the manifests passed to `ArchiveFile`, whether `DeleteFile(tmp)` was
issued, whether the temp was renamed to the descriptor path, and whether
`CURRENT` was repointed. -/
structure WriteDescResult where
  status : Status
  edit : Option VersionEdit
  archivedManifests : List String
  deletedTemp : Bool
  renamed : Bool
  currentSet : Bool
  deriving DecidableEq

/-- `Repairer::WriteDescriptor` (lines 391-448).  Control flow of the
source: bail out on `NewWritableFile` failure; build and write the edit;
if the write or close failed, delete the temp and return; otherwise
archive every pre-existing manifest, then rename the temp into place
(deleting it if the rename failed) and finally repoint `CURRENT`. -/
def lgWriteDescriptor (env : DescriptorEnv) (cmpName : String) (st : LgState) :
    WriteDescResult :=
  if env.newFileStatus ≠ .ok then
    { status := env.newFileStatus, edit := none, archivedManifests := [],
      deletedTemp := false, renamed := false, currentSet := false }
  else
    let edit := buildEdit cmpName st
    let wstatus := if env.addRecordStatus ≠ .ok then env.addRecordStatus else env.closeStatus
    if wstatus ≠ .ok then
      { status := wstatus, edit := some edit, archivedManifests := [],
        deletedTemp := true, renamed := false, currentSet := false }
    else if env.renameStatus ≠ .ok then
      { status := env.renameStatus, edit := some edit, archivedManifests := st.manifests,
        deletedTemp := true, renamed := false, currentSet := false }
    else
      { status := env.setCurrentStatus, edit := some edit,
        archivedManifests := st.manifests, deletedTemp := false, renamed := true,
        currentSet := if env.setCurrentStatus = .ok then true else false }

/-- One record as `log::Reader::ReadRecord` returns it inside
`DBRepairer::ConvertLogToTable`: its physical size in bytes and, when it
is at least 12 bytes, the write-batch header `(sequence, count)` plus the
decoded mutations (`WriteBatchInternal::Sequence/Count/SetContents`,
outside this source tree, modelled from the spec). -/
structure LogRecord where
  size : Nat
  seq : Nat
  count : Nat
  mutations : List Mutation
  deriving DecidableEq

/-- Modelled from the spec: `WriteBatch::SeperateLocalityGroup`
(db/write_batch.cc is not part of this source tree) splits the batch's
mutations by the LG id tag carried in each mutation, emitting a fresh
batch per LG; slot `i` is `none` when no mutation is tagged for LG `i`. -/
def separateLocalityGroup (lgCount : Nat) (muts : List Mutation) :
    List (Option (List Mutation)) :=
  (List.range lgCount).map (fun i =>
    let ms := muts.filter (fun m => m.lg = i)
    if ms = [] then none else some ms)

/-- The `lg_batchs` vector of `DBRepairer::ConvertLogToTable` (lines
621-638): with more than one LG the record is split by
`SeperateLocalityGroup` and each sub-batch is stamped with the original
sequence; with a single LG slot 0 aliases the whole batch, whose count is
the parent header's `count`.  Each slot carries the sub-batch's mutations
together with its `WriteBatchInternal::Count`. -/
def lgBatches (lgCount : Nat) (r : LogRecord) : List (Option (List Mutation × Nat)) :=
  if lgCount > 1 then
    (separateLocalityGroup lgCount r.mutations).map
      (Option.map (fun ms => (ms, ms.length)))
  else
    [some (r.mutations, r.count)]

/-- Ghost trace of one `InsertMemTable` call: the target LG, the sequence
argument, the LG's `max_sequence_` at entry and at exit, and the
sub-batch count. -/
structure InsertEvent where
  lg : Nat
  batchSeq : Nat
  entryMaxSequence : Nat
  exitMaxSequence : Nat
  batchCount : Nat
  deriving DecidableEq

/-- The insert loop of `DBRepairer::ConvertLogToTable` (lines 639-653):
slot `i` of `lg_batchs` goes to `repairers[i]` (the model keeps the
repairers contiguously indexed, the layout the in-bounds analysis shows
the code requires).  Returns the updated repairer states and the trace of
`InsertMemTable` calls. -/
def insertSubBatches (batchSeq : Nat) :
    Nat → List LgState → List (Option (List Mutation × Nat)) →
    List LgState × List InsertEvent
  | _, sts, [] => (sts, [])
  | _, [], _ :: _ => ([], [])
  | i, st :: sts, none :: bs =>
    let r := insertSubBatches batchSeq (i + 1) sts bs
    (st :: r.1, r.2)
  | i, st :: sts, some (ms, cnt) :: bs =>
    let st1 := lgInsertMemTable st ms cnt batchSeq
    let r := insertSubBatches batchSeq (i + 1) sts bs
    (st1 :: r.1,
     { lg := i, batchSeq := batchSeq, entryMaxSequence := st.max_sequence,
       exitMaxSequence := st1.max_sequence, batchCount := cnt } :: r.2)

/-- The coordinator state (the fields of class `DBRepairer`, db/repair.cc
lines 728-737).  `events` and `recordsSeen` are ghost traces: every
`InsertMemTable` call and every record returned by `ReadRecord`, in
order.  `dbArchivedLogs` records the WAL numbers passed to
`ArchiveFile`. -/
structure DBState where
  dbname : String
  repairers : List LgState
  logfiles : List Nat
  log_number : Nat
  last_sequence : Nat
  events : List InsertEvent
  recordsSeen : List LogRecord
  dbArchivedLogs : List Nat
  deriving DecidableEq

/-- Handling of one record inside `DBRepairer::ConvertLogToTable` (lines
605-663): records shorter than 12 bytes are reported as corruption and
skipped; records with `batch_seq <= last_sequence_` are dropped as
duplicates; surviving records are split per LG, inserted with the
original sequence, and then `last_sequence_ = batch_seq + batch_count -
1`. -/
def processRecord (st : DBState) (r : LogRecord) : DBState :=
  if r.size < 12 then { st with recordsSeen := st.recordsSeen ++ [r] }
  else if r.seq ≤ st.last_sequence then { st with recordsSeen := st.recordsSeen ++ [r] }
  else
    { st with
        recordsSeen := st.recordsSeen ++ [r],
        repairers :=
          (insertSubBatches r.seq 0 st.repairers (lgBatches st.repairers.length r)).1,
        events :=
          st.events ++
            (insertSubBatches r.seq 0 st.repairers (lgBatches st.repairers.length r)).2,
        last_sequence := seqPlusCountM1 r.seq r.count }

/-- Environment of one `DBRepairer::ConvertLogToTable` call: the
`NewSequentialFile` status, the records the `log::Reader` yields in
physical order, and the per-LG `BuildTable` outcomes and scan inputs used
by the flush loop at the end of the conversion. -/
structure LogEnv where
  openStatus : Status
  records : List LogRecord
  buildEnv : Nat → BuildInput
  scanEnv : Nat → Nat → ScanInput

/-- Flush of one LG after a WAL is exhausted (lines 666-690): skip LGs
without a memtable; build a table file; on success re-scan it through
`AddTableMeta`.  Build and scan failures are logged and swallowed. -/
def flushLg (le : LogEnv) (i : Nat) (st : LgState) : LgState :=
  if lgHasMemTable st = false then st
  else
    let b := lgBuildTableFile (le.buildEnv i) st
    if b.1 ≠ .ok then b.2.2
    else (lgAddTableMeta (le.scanEnv i) b.2.2 b.2.1).2

/-- The flush loop over all LGs (lines 666-690), with the repairers
contiguously indexed. -/
def dbConvertFlush (le : LogEnv) : Nat → List LgState → List LgState
  | _, [] => []
  | i, st :: sts => flushLg le i st :: dbConvertFlush le (i + 1) sts

/-- `DBRepairer::ConvertLogToTable` (lines 569-697): propagate the open
error; otherwise replay every record in physical order and then flush
each LG that accumulated a memtable.  All per-record and per-flush
failures are swallowed, so the conversion returns `ok` once the file
opened. -/
def dbConvertLogToTable (le : LogEnv) (st : DBState) : Status × DBState :=
  if le.openStatus ≠ .ok then (le.openStatus, st)
  else
    let st1 := le.records.foldl processRecord st
    (Status.ok, { st1 with repairers := dbConvertFlush le 0 st1.repairers })

/-- The loop body of `DBRepairer::ConvertLogFilesToTables` (lines
555-567): convert each WAL, then archive it regardless of the conversion
outcome. -/
def dbConvertLogs (envF : Nat → LogEnv) : List Nat → DBState → DBState
  | [], st => st
  | log :: rest, st =>
    let r := dbConvertLogToTable (envF log) st
    dbConvertLogs envF rest
      { r.2 with dbArchivedLogs := r.2.dbArchivedLogs ++ [log] }

/-- `DBRepairer::ConvertLogFilesToTables` (lines 555-567): WALs are
processed in the order `logfiles_` holds them. -/
def dbConvertLogFilesToTables (envF : Nat → LogEnv) (st : DBState) : DBState :=
  dbConvertLogs envF st.logfiles st

/-- One filename of the `DBRepairer::FindFiles` loop (lines 537-546):
only WAL files are collected at the root; `log_number_` tracks
`max(number) + 1`. -/
def dbFindFilesLoop (st : DBState) (f : String) : DBState :=
  match parseFileName f with
  | some (number, FileType.logFile) =>
    { st with logfiles := st.logfiles ++ [number],
              log_number :=
                if number + 1 > st.log_number then number + 1 else st.log_number }
  | _ => st

/-- The per-LG fan-out of `DBRepairer::FindFiles` (lines 548-551): each
repairer enumerates its own subdirectory; the returned status is
discarded by the coordinator, as in the source. -/
def dbFindLgs (bffn : Nat → Nat) (lgFilesF : Nat → Status × List String) :
    Nat → List LgState → List LgState
  | _, [] => []
  | i, st :: sts =>
    (lgFindFiles bffn (lgFilesF i).1 (lgFilesF i).2 st).2 ::
      dbFindLgs bffn lgFilesF (i + 1) sts

/-- `DBRepairer::FindFiles` (lines 525-553): propagate the `GetChildren`
error; fail with `IOError(dbname, "repair found no files")` on an empty
root listing; otherwise collect the WAL numbers in enumeration order and
let every LG enumerate its subdirectory. -/
def dbFindFiles (bffn : Nat → Nat) (rootStatus : Status) (rootFiles : List String)
    (lgFilesF : Nat → Status × List String) (st : DBState) : Status × DBState :=
  if rootStatus ≠ .ok then (rootStatus, st)
  else if rootFiles = [] then (Status.ioError st.dbname "repair found no files", st)
  else
    let st1 := rootFiles.foldl dbFindFilesLoop st
    (Status.ok, { st1 with repairers := dbFindLgs bffn lgFilesF 0 st1.repairers })

/-- The per-LG extraction of `DBRepairer::ExtractMetaData` (lines
699-707), repairers contiguously indexed. -/
def dbExtractLgs (scanF : Nat → Nat → ScanInput) : Nat → List LgState → List LgState
  | _, [] => []
  | i, st :: sts => lgExtractMetaData (scanF i) st :: dbExtractLgs scanF (i + 1) sts

/-- The `last_sequence_` update of `DBRepairer::ExtractMetaData` (lines
703-705): fold the maximum of every repairer's `max_sequence_` into the
running value. -/
def maxOfLgs (base : Nat) (lgs : List LgState) : Nat :=
  lgs.foldl (fun m lg => if m < lg.max_sequence then lg.max_sequence else m) base

/-- `DBRepairer::ExtractMetaData` (lines 699-707).  The source interleaves
each LG's extraction with the `last_sequence_` update; since each LG is
visited exactly once this equals extracting all LGs and then folding
their maxima. -/
def dbExtractMetaData (scanF : Nat → Nat → ScanInput) (st : DBState) : DBState :=
  let reps := dbExtractLgs scanF 0 st.repairers
  { st with repairers := reps, last_sequence := maxOfLgs st.last_sequence reps }

/-- The per-LG descriptor installs of `DBRepairer::WriteDescriptor`
(lines 709-722): every LG is attempted, in order. -/
def dbDescriptorResults (descEnvF : Nat → DescriptorEnv) (cmpName : String) :
    Nat → List LgState → List WriteDescResult
  | _, [] => []
  | i, st :: sts =>
    lgWriteDescriptor (descEnvF i) cmpName st ::
      dbDescriptorResults descEnvF cmpName (i + 1) sts

/-- The status folding of `DBRepairer::WriteDescriptor` (lines 709-722):
`status` starts `ok` and is overwritten by each failing LG's status. -/
def dbWriteDescriptorStatus (results : List WriteDescResult) : Status :=
  results.foldl (fun acc r => if r.status.isOk then acc else r.status) Status.ok

/-- Environment of a whole `RepairDB` run. -/
structure RepairEnv where
  rootStatus : Status
  rootFiles : List String
  lgFilesF : Nat → Status × List String
  scanF : Nat → Nat → ScanInput
  logEnvF : Nat → LogEnv
  descEnvF : Nat → DescriptorEnv

/-- `DBRepairer::Run` (lines 514-522): `FindFiles`, then (only when it
succeeded) `ExtractMetaData`, `ConvertLogFilesToTables` and
`WriteDescriptor`. -/
def dbRun (bffn : Nat → Nat) (cmpName : String) (env : RepairEnv) (st : DBState) :
    Status × DBState :=
  let f := dbFindFiles bffn env.rootStatus env.rootFiles env.lgFilesF st
  if f.1 ≠ .ok then f
  else
    let st2 := dbExtractMetaData env.scanF f.2
    let st3 := dbConvertLogFilesToTables env.logEnvF st2
    (dbWriteDescriptorStatus (dbDescriptorResults env.descEnvF cmpName 0 st3.repairers),
     st3)

/-- Length of the `repairers` vector the `DBRepairer` constructor builds
(lines 497-502): one `push_back` per id of `exist_lg_list`. -/
def repairersVectorLength (lgList : Finset ℕ) : ℕ :=
  lgList.card

/-- The subscripts the coordinator uses on that vector outside the
constructor are the LG id values themselves: `repairers[*it]` in
`FindFiles` (line 550), `ExtractMetaData` (line 702), `WriteDescriptor`
(line 713) and the destructor (line 507), and `repairers[i]` for every
slot `i` of `lg_batchs` in `ConvertLogToTable` (lines 639-653), where
`lg_batchs` also has one slot per id.  All of them are in bounds exactly
when every id is below the vector length. -/
def lgAccessesInBounds (lgList : Finset ℕ) : Prop :=
  ∀ id ∈ lgList, id < repairersVectorLength lgList

/-- The file numbers `Repairer::FindFiles` observes in an LG directory:
every parsed child that is not a descriptor (descriptors are collected by
name and do not advance `next_file_number_`). -/
def observedNumbers (filenames : List String) : List Nat :=
  filenames.filterMap (fun f =>
    match parseFileName f with
    | some (n, ty) => if ty = FileType.descriptorFile then none else some n
    | none => none)

/-- Number of non-`none` slots of the `lg_batchs` vector, i.e. the number
of `InsertMemTable` calls one surviving record triggers. -/
def countInserted (lgCount : Nat) (r : LogRecord) : Nat :=
  (lgBatches lgCount r).countP (fun b => b.isSome)

/-- Specification helper: the last element of a status list that is not
`ok`, scanning from the right. -/
def lastFailure : List Status → Option Status
  | [] => none
  | s :: t =>
    match lastFailure t with
    | some x => some x
    | none => if s = Status.ok then none else some s

/-- Specification helper: the WAL number a root-directory child name
contributes to `logfiles_`, if any. -/
def parseLogNumber (f : String) : Option Nat :=
  match parseFileName f with
  | some (n, FileType.logFile) => some n
  | _ => none

/-- Replay invariant of the coordinator: every LG repairer's running
`max_sequence_` is at or below the coordinator's `last_sequence_`. -/
def ReplayInv (st : DBState) : Prop :=
  ∀ lg ∈ st.repairers, lg.max_sequence ≤ st.last_sequence

/-- Certification of the `InsertMemTable` trace: every call observed the
code's `assert(batch_seq > max_sequence_)` and left
`max_sequence_ = batch_seq + count - 1`. -/
def EventsCertified (l : List InsertEvent) : Prop :=
  ∀ e ∈ l, e.entryMaxSequence < e.batchSeq ∧
    e.exitMaxSequence = e.batchSeq + e.batchCount - 1

/-! Concrete fixtures used to exercise the definitions at specific
inputs. -/

/-- A scan environment whose iterator yields one well-formed key. -/
def scanTrivial : ScanInput :=
  { fileSizeStatus := Status.ok, fileSize := 1,
    keys := [.valid { userKey := "k", sequence := 1, kind := 1 }],
    iterStatus := Status.ok }

/-- A `BuildTable` outcome that succeeded with a nonempty file. -/
def buildTrivial : BuildInput :=
  { buildStatus := Status.ok, fileSize := 1 }

/-- A descriptor-install environment where every filesystem step
succeeds. -/
def descEnvOk : DescriptorEnv :=
  { newFileStatus := Status.ok, addRecordStatus := Status.ok, closeStatus := Status.ok,
    renameStatus := Status.ok, setCurrentStatus := Status.ok }

/-- A coordinator state with a single LG whose table scans produced
`max_sequence = 51`, after metadata extraction set `last_sequence_` to
51. -/
def stC : DBState :=
  { dbname := "db",
    repairers := [{ lgInit "db/0" with max_sequence := 51 }],
    logfiles := [], log_number := 0, last_sequence := 51,
    events := [], recordsSeen := [], dbArchivedLogs := [] }

/-- A 12-byte record with header `(sequence 50, count 3)`: its range
`50..52` extends above `last_sequence = 51`. -/
def rC : LogRecord :=
  { size := 12, seq := 50, count := 3, mutations := [{ lg := 0, payload := "a" }] }

/-- A 12-byte record with header `(sequence 52, count 3)`, entirely above
`last_sequence = 51`. -/
def rC2 : LogRecord :=
  { size := 12, seq := 52, count := 3, mutations := [{ lg := 0, payload := "a" }] }

/-- Descriptor environment whose record write fails for LG 0. -/
def envDescFail0 : DescriptorEnv :=
  { descEnvOk with addRecordStatus := Status.corruption "lg0 write failed" }

/-- Descriptor environment whose record write fails for LG 1. -/
def envDescFail1 : DescriptorEnv :=
  { descEnvOk with addRecordStatus := Status.corruption "lg1 write failed" }

/-- Per-LG descriptor environments: both LGs fail, with distinct
statuses. -/
def descEnvBothFail : Nat → DescriptorEnv :=
  fun i => if i = 0 then envDescFail0 else envDescFail1

/-- Results of `DBRepairer::WriteDescriptor` over two LGs that both fail. -/
def resBothFail : List WriteDescResult :=
  dbDescriptorResults descEnvBothFail "cmp" 0 [lgInit "db/0", lgInit "db/1"]

/-- Descriptor environment where only the final rename fails. -/
def envRenameFail : DescriptorEnv :=
  { descEnvOk with renameStatus := Status.ioError "db/0" "rename failed" }

/-- An LG state holding one pre-existing manifest. -/
def stManifests : LgState :=
  { lgInit "db/0" with manifests := ["MANIFEST-7"] }

/-- A run environment whose root directory enumerates successfully but is
empty. -/
def envEmptyRoot : RepairEnv :=
  { rootStatus := Status.ok, rootFiles := [],
    lgFilesF := fun _ => (Status.ok, []),
    scanF := fun _ _ => scanTrivial,
    logEnvF := fun _ =>
      { openStatus := Status.ok, records := [], buildEnv := fun _ => buildTrivial,
        scanEnv := fun _ _ => scanTrivial },
    descEnvF := fun _ => descEnvOk }

/-- A fresh coordinator state over one LG, as the `DBRepairer`
constructor leaves it. -/
def stFresh : DBState :=
  { dbname := "db", repairers := [lgInit "db/0"], logfiles := [], log_number := 0,
    last_sequence := 0, events := [], recordsSeen := [], dbArchivedLogs := [] }

/-- An LG state holding one retained table (keys `a@5 .. b@6`), as in a
single-table repair. -/
def lgOneTable : LgState :=
  { lgInit "db/0" with
      next_file_number := 2,
      tables := [{ meta := { number := 1, file_size := 10,
                             smallest := .valid { userKey := "a", sequence := 5, kind := 1 },
                             largest := .valid { userKey := "b", sequence := 6, kind := 1 } },
                   max_sequence := 6 }] }

/-- Scan input with one garbage key followed by two parseable keys
`x@7`, `y@9`. -/
def siMixedKeys : ScanInput :=
  { fileSizeStatus := Status.ok, fileSize := 100,
    keys := [.garbage "zz",
             .valid { userKey := "x", sequence := 7, kind := 1 },
             .valid { userKey := "y", sequence := 9, kind := 1 }],
    iterStatus := Status.ok }

/-- Scan input whose iterator yields only garbage keys. -/
def siAllGarbage : ScanInput :=
  { fileSizeStatus := Status.ok, fileSize := 100,
    keys := [.garbage "g1", .garbage "g2"],
    iterStatus := Status.ok }

/-- Per-table scan inputs for an LG with tables 1 and 2: table 1 is
healthy, table 2 parses zero keys. -/
def scanFEmptyTable : Nat → ScanInput :=
  fun n => if n = 2 then siAllGarbage else scanTrivial

/-- An LG that discovered tables 1 and 2. -/
def lgTwoTables : LgState :=
  { lgInit "db/0" with table_numbers := [1, 2], next_file_number := 3 }

/-- Root listing enumerated in an order that is not ascending by file
number. -/
def rootUnsorted : List String := ["2.log", "1.log"]

/-- The only record of WAL 1 (sequence 10). -/
def recLog1 : LogRecord :=
  { size := 12, seq := 10, count := 1, mutations := [{ lg := 0, payload := "v1" }] }

/-- The only record of WAL 2 (sequence 20). -/
def recLog2 : LogRecord :=
  { size := 12, seq := 20, count := 1, mutations := [{ lg := 0, payload := "v2" }] }

/-- Per-WAL environments for WALs 1 and 2. -/
def logEnvByNumber : Nat → LogEnv :=
  fun log =>
    { openStatus := Status.ok,
      records := if log = 2 then [recLog2] else [recLog1],
      buildEnv := fun _ => buildTrivial,
      scanEnv := fun _ _ => scanTrivial }

/-- The coordinator state after `FindFiles` over the unsorted root
listing. -/
def stAfterFind : DBState :=
  (dbFindFiles id Status.ok rootUnsorted (fun _ => (Status.ok, [])) stFresh).2

/-- A WAL environment carrying one record `(sequence 5, count 1)`. -/
def logEnvSeq5 : Nat → LogEnv :=
  fun _ =>
    { openStatus := Status.ok,
      records := [{ size := 12, seq := 5, count := 1,
                    mutations := [{ lg := 0, payload := "k" }] }],
      buildEnv := fun _ => buildTrivial,
      scanEnv := fun _ _ => scanTrivial }

/-- A fresh one-LG coordinator that discovered WAL 1. -/
def stOneLog : DBState :=
  { stFresh with logfiles := [1], log_number := 2 }

/-! Helper lemmas. -/

theorem lastFailure_getD_foldl (l : List Status) :
    ∀ a : Status,
      l.foldl (fun acc s => if s.isOk then acc else s) a = (lastFailure l).getD a := by
  induction l with
  | nil => intro a; rfl
  | cons s t ih =>
    intro a
    simp only [List.foldl, lastFailure]
    rw [ih]
    cases h : lastFailure t with
    | some x => simp
    | none =>
      cases s <;> simp [Status.isOk]

theorem lastFailure_eq_none_iff (l : List Status) :
    lastFailure l = none ↔ ∀ s ∈ l, s = Status.ok := by
  induction l with
  | nil => simp [lastFailure]
  | cons s t ih =>
    constructor
    · intro h y hy
      simp only [lastFailure] at h
      cases ht : lastFailure t with
      | some x => rw [ht] at h; exact absurd h (by simp)
      | none =>
        rw [ht] at h
        by_cases hs : s = Status.ok
        · rcases List.mem_cons.mp hy with rfl | hy'
          · exact hs
          · exact ih.mp ht y hy'
        · rw [if_neg hs] at h; exact absurd h (by simp)
    · intro hall
      have hs : s = Status.ok := hall s (List.mem_cons_self s t)
      have ht : lastFailure t = none :=
        ih.mpr (fun y hy => hall y (List.mem_cons_of_mem s hy))
      simp [lastFailure, ht, hs]

theorem lastFailure_mem_ne_ok (l : List Status) :
    ∀ x, lastFailure l = some x → x ≠ Status.ok := by
  induction l with
  | nil => intro x hx; simp [lastFailure] at hx
  | cons s t ih =>
    intro x hx
    simp only [lastFailure] at hx
    cases ht : lastFailure t with
    | some y =>
      rw [ht] at hx
      have hxy : y = x := by simpa using hx
      exact hxy ▸ ih y ht
    | none =>
      rw [ht] at hx
      by_cases hs : s = Status.ok
      · rw [if_pos hs] at hx; exact absurd hx (by simp)
      · rw [if_neg hs] at hx
        have hsx : s = x := by simpa using hx
        exact hsx ▸ hs

theorem dbDescriptorResults_length (descEnvF : Nat → DescriptorEnv) (cmpName : String) :
    ∀ (lgs : List LgState) (i : Nat),
      (dbDescriptorResults descEnvF cmpName i lgs).length = lgs.length := by
  intro lgs
  induction lgs with
  | nil => intro i; rfl
  | cons st sts ih => intro i; simp [dbDescriptorResults, ih]

/-! Claim theorems. -/

/-- Claim C10 (confirmed): the coordinator appends one repairer per id of
`exist_lg_list` but thereafter subscripts the vector with the id value;
every such access is in bounds exactly when `exist_lg_list` is the
contiguous set `{0, ..., n-1}`, and any set containing an id at or above
its own cardinality makes replay and metadata extraction index out of
bounds. -/
theorem lg_vector_indexing_in_bounds (lgList : Finset ℕ) :
    (lgAccessesInBounds lgList ↔ lgList = Finset.range (repairersVectorLength lgList)) ∧
    (∀ id ∈ lgList, repairersVectorLength lgList ≤ id → ¬ lgAccessesInBounds lgList) := by
  constructor
  · constructor
    · intro h
      have hsub : lgList ⊆ Finset.range lgList.card := by
        intro x hx
        simpa [Finset.mem_range] using h x hx
      have hcard : (Finset.range lgList.card).card ≤ lgList.card := by
        simp
      exact Finset.eq_of_subset_of_card_le hsub hcard
    · intro h id hid
      have : id ∈ Finset.range (repairersVectorLength lgList) := h ▸ hid
      simpa [Finset.mem_range] using this
  · intro id hid hge hall
    exact absurd (hall id hid) (by omega)

/-- Claim C10 witness: `exist_lg_list = {0, 2}` has an id (2) at its own
cardinality, so the accesses go out of bounds. -/
theorem lg_vector_indexing_in_bounds_witness :
    ¬ lgAccessesInBounds ({0, 2} : Finset ℕ) :=
  (lg_vector_indexing_in_bounds ({0, 2} : Finset ℕ)).2 2 (by decide) (by decide)

/-- Claim C3 (amended): `DBRepairer::WriteDescriptor` returns `Ok` iff
every LG's descriptor install succeeded; otherwise it returns the status
of the LAST LG whose install failed (the loop overwrites `status` on each
failure), while still attempting the install for every LG. -/
theorem db_write_descriptor_result (results : List WriteDescResult)
    (descEnvF : Nat → DescriptorEnv) (cmpName : String) (lgs : List LgState) (i : Nat) :
    dbWriteDescriptorStatus results
      = (lastFailure (results.map WriteDescResult.status)).getD Status.ok ∧
    (dbWriteDescriptorStatus results = Status.ok ↔
      ∀ r ∈ results, r.status = Status.ok) ∧
    (dbDescriptorResults descEnvF cmpName i lgs).length = lgs.length := by
  have hfold : dbWriteDescriptorStatus results
      = (lastFailure (results.map WriteDescResult.status)).getD Status.ok := by
    unfold dbWriteDescriptorStatus
    rw [← lastFailure_getD_foldl]
    simp only [List.foldl_map]
  refine ⟨hfold, ?_, dbDescriptorResults_length descEnvF cmpName lgs i⟩
  rw [hfold]
  constructor
  · intro h r hr
    cases hl : lastFailure (results.map WriteDescResult.status) with
    | some x =>
      rw [hl] at h
      exact absurd (by simpa using h) (lastFailure_mem_ne_ok _ x hl)
    | none =>
      have := (lastFailure_eq_none_iff _).mp hl
      exact this r.status (List.mem_map_of_mem _ hr)
  · intro h
    have : lastFailure (results.map WriteDescResult.status) = none := by
      refine (lastFailure_eq_none_iff _).mpr ?_
      intro s hs
      rcases List.mem_map.mp hs with ⟨r, hr, rfl⟩
      exact h r hr
    simp [this]

/-- Claim C3 witness: with both LGs succeeding the run returns `Ok`. -/
theorem db_write_descriptor_result_witness :
    dbWriteDescriptorStatus
        (dbDescriptorResults (fun _ => descEnvOk) "cmp" 0 [lgInit "db/0", lgInit "db/1"])
      = Status.ok :=
  (db_write_descriptor_result
      (dbDescriptorResults (fun _ => descEnvOk) "cmp" 0 [lgInit "db/0", lgInit "db/1"])
      (fun _ => descEnvOk) "cmp" [] 0).2.1.mpr (by decide)

/-- Claim C3 counterexample: when LG 0 fails with one status and LG 1
with another, the coordinator returns LG 1's status — the LAST failure,
not the first as the claim states. -/
theorem db_write_descriptor_claim_false :
    resBothFail.map WriteDescResult.status
      = [Status.corruption "lg0 write failed", Status.corruption "lg1 write failed"] ∧
    dbWriteDescriptorStatus resBothFail = Status.corruption "lg1 write failed" ∧
    Status.corruption "lg1 write failed" ≠ Status.corruption "lg0 write failed" := by
  refine ⟨by decide, by decide, by decide⟩

/-- Claim C8 (amended): on temp-file create failure nothing was written,
no delete is issued, and no manifest is archived; on record-write or
close failure the temp is deleted, the error is returned, and the
manifests are not archived; on rename failure the temp is deleted and the
error is returned, but the pre-existing manifests HAVE already been
archived, because `WriteDescriptor` archives them before attempting the
rename. -/
theorem descriptor_install_failure_cleanup (env : DescriptorEnv) (cmp : String)
    (st : LgState) :
    (env.newFileStatus ≠ Status.ok →
      lgWriteDescriptor env cmp st =
        { status := env.newFileStatus, edit := none, archivedManifests := [],
          deletedTemp := false, renamed := false, currentSet := false }) ∧
    (env.newFileStatus = Status.ok → env.addRecordStatus ≠ Status.ok →
      lgWriteDescriptor env cmp st =
        { status := env.addRecordStatus, edit := some (buildEdit cmp st),
          archivedManifests := [], deletedTemp := true, renamed := false,
          currentSet := false }) ∧
    (env.newFileStatus = Status.ok → env.addRecordStatus = Status.ok →
     env.closeStatus ≠ Status.ok →
      lgWriteDescriptor env cmp st =
        { status := env.closeStatus, edit := some (buildEdit cmp st),
          archivedManifests := [], deletedTemp := true, renamed := false,
          currentSet := false }) ∧
    (env.newFileStatus = Status.ok → env.addRecordStatus = Status.ok →
     env.closeStatus = Status.ok → env.renameStatus ≠ Status.ok →
      lgWriteDescriptor env cmp st =
        { status := env.renameStatus, edit := some (buildEdit cmp st),
          archivedManifests := st.manifests, deletedTemp := true, renamed := false,
          currentSet := false }) := by
  refine ⟨?_, ?_, ?_, ?_⟩
  · intro h1
    simp [lgWriteDescriptor, h1]
  · intro h1 h2
    simp [lgWriteDescriptor, h1, h2]
  · intro h1 h2 h3
    simp [lgWriteDescriptor, h1, h2, h3]
  · intro h1 h2 h3 h4
    simp [lgWriteDescriptor, h1, h2, h3, h4]

/-- Claim C8 witness: a failed record write deletes the temp, archives
nothing, and surfaces the write error. -/
theorem descriptor_install_failure_cleanup_witness :
    lgWriteDescriptor envDescFail0 "cmp" stManifests =
      { status := Status.corruption "lg0 write failed",
        edit := some (buildEdit "cmp" stManifests),
        archivedManifests := [], deletedTemp := true, renamed := false,
        currentSet := false } :=
  (descriptor_install_failure_cleanup envDescFail0 "cmp" stManifests).2.1
    (by decide) (by decide)

/-- Claim C8 counterexample: when only the rename fails, the claim says
the pre-existing manifests are not archived; the code has already
archived them (line 435 precedes the rename at line 440). -/
theorem descriptor_install_failure_claim_false :
    (lgWriteDescriptor envRenameFail "cmp" stManifests).status
      = Status.ioError "db/0" "rename failed" ∧
    (lgWriteDescriptor envRenameFail "cmp" stManifests).deletedTemp = true ∧
    (lgWriteDescriptor envRenameFail "cmp" stManifests).archivedManifests
      = ["MANIFEST-7"] ∧
    (lgWriteDescriptor envRenameFail "cmp" stManifests).archivedManifests ≠ [] := by
  refine ⟨by decide, by decide, by decide, by decide⟩

/-- Claim C9 (amended): when the root directory enumerates successfully
but is empty, the repair fails before performing any mutation — the state
is returned untouched — but the status is
`IOError(dbname, "repair found no files")`, not `NotFound`. -/
theorem empty_root_dir_aborts (bffn : Nat → Nat) (cmpName : String) (env : RepairEnv)
    (st : DBState) (hok : env.rootStatus = Status.ok) (hempty : env.rootFiles = []) :
    dbRun bffn cmpName env st
      = (Status.ioError st.dbname "repair found no files", st) ∧
    (Status.ioError st.dbname "repair found no files").isNotFoundCode = false := by
  constructor
  · simp [dbRun, dbFindFiles, hok, hempty]
  · rfl

/-- Claim C9 witness: the empty-root run aborts with the `IOError` status
and leaves the fresh state untouched. -/
theorem empty_root_dir_aborts_witness :
    dbRun id "cmp" envEmptyRoot stFresh
      = (Status.ioError "db" "repair found no files", stFresh) :=
  (empty_root_dir_aborts id "cmp" envEmptyRoot stFresh rfl rfl).1

/-- Claim C9 counterexample: the empty-directory failure status carries
the `IOError` code, not `NotFound` as the claim states. -/
theorem empty_root_dir_claim_false :
    (dbRun id "cmp" envEmptyRoot stFresh).1
      = Status.ioError "db" "repair found no files" ∧
    (dbRun id "cmp" envEmptyRoot stFresh).1.isNotFoundCode = false ∧
    (dbRun id "cmp" envEmptyRoot stFresh).2 = stFresh := by
  refine ⟨by decide, by decide, by decide⟩

theorem lgFindFilesLoop_nfn_mono (bffn : Nat → Nat) (st : LgState) (f : String) :
    st.next_file_number ≤ (lgFindFilesLoop bffn st f).next_file_number := by
  unfold lgFindFilesLoop
  cases h : parseFileName f with
  | none => exact le_refl _
  | some p =>
    obtain ⟨number, ty⟩ := p
    by_cases hd : ty = FileType.descriptorFile
    · simp [hd]
    · simp only [hd, if_false]
      by_cases hl : ty = FileType.logFile
      · simp [hl]; split_ifs <;> omega
      · simp only [hl, if_false]
        by_cases ht : ty = FileType.tableFile
        · simp [ht]; split_ifs <;> omega
        · simp [ht]; split_ifs <;> omega

theorem foldl_lgFindFilesLoop_nfn_mono (bffn : Nat → Nat) :
    ∀ (files : List String) (st : LgState),
      st.next_file_number ≤ (files.foldl (lgFindFilesLoop bffn) st).next_file_number := by
  intro files
  induction files with
  | nil => intro st; exact le_refl _
  | cons f fs ih =>
    intro st
    exact le_trans (lgFindFilesLoop_nfn_mono bffn st f) (ih (lgFindFilesLoop bffn st f))

theorem lgFindFilesLoop_nfn_observed (bffn : Nat → Nat) (st : LgState) (f : String)
    (number : Nat) (ty : FileType) (h : parseFileName f = some (number, ty))
    (hd : ty ≠ FileType.descriptorFile) :
    number < (lgFindFilesLoop bffn st f).next_file_number := by
  unfold lgFindFilesLoop
  rw [h]
  simp only [hd, if_false]
  by_cases hl : ty = FileType.logFile
  · simp [hl]; split_ifs <;> omega
  · simp only [hl, if_false]
    by_cases ht : ty = FileType.tableFile
    · simp [ht]; split_ifs <;> omega
    · simp [ht]; split_ifs <;> omega

theorem foldl_lgFindFilesLoop_observed (bffn : Nat → Nat) :
    ∀ (files : List String) (st : LgState),
      ∀ n ∈ observedNumbers files,
        n < (files.foldl (lgFindFilesLoop bffn) st).next_file_number := by
  intro files
  induction files with
  | nil => intro st n hn; simp [observedNumbers] at hn
  | cons f fs ih =>
    intro st n hn
    simp only [observedNumbers, List.filterMap_cons] at hn
    cases h : parseFileName f with
    | none =>
      rw [h] at hn
      exact ih (lgFindFilesLoop bffn st f) n hn
    | some p =>
      obtain ⟨number, ty⟩ := p
      rw [h] at hn
      by_cases hd : ty = FileType.descriptorFile
      · simp only [hd, if_pos rfl] at hn
        exact ih (lgFindFilesLoop bffn st f) n hn
      · simp only [if_neg hd] at hn
        rcases List.mem_cons.mp hn with rfl | hn'
        · calc n < (lgFindFilesLoop bffn st f).next_file_number :=
                lgFindFilesLoop_nfn_observed bffn st f n ty h hd
            _ ≤ (fs.foldl (lgFindFilesLoop bffn) (lgFindFilesLoop bffn st f)).next_file_number :=
                foldl_lgFindFilesLoop_nfn_mono bffn fs _
        · exact ih (lgFindFilesLoop bffn st f) n hn'

/-- Claim C2 (confirmed): the synthesized per-LG descriptor sets
`log_number = 0`, `next_file` to the repairer's `next_file_number_` —
which after `FindFiles` strictly exceeds every file number observed in
the LG directory, and which each table build only increments —
`last_sequence` to the maximum `max_sequence` over the retained tables,
and one level-0 `AddFile(number, size, smallest, largest)` entry per
retained `TableInfo`. -/
theorem descriptor_synthesis_fields (cmp : String) (env : DescriptorEnv) (st : LgState)
    (hok : env.newFileStatus = Status.ok) :
    (lgWriteDescriptor env cmp st).edit = some (buildEdit cmp st) ∧
    (buildEdit cmp st).logNumber = 0 ∧
    (buildEdit cmp st).nextFile = st.next_file_number ∧
    (buildEdit cmp st).lastSequence = seqMaxOfTables st.tables ∧
    (buildEdit cmp st).files = st.tables.map (fun t =>
      { level := 0, number := t.meta.number, file_size := t.meta.file_size,
        smallest := t.meta.smallest, largest := t.meta.largest }) ∧
    (∀ (bffn : Nat → Nat) (filenames : List String) (st0 : LgState),
      ∀ n ∈ observedNumbers filenames,
        n < ((lgFindFiles bffn Status.ok filenames st0).2).next_file_number) ∧
    (∀ (binput : BuildInput) (st1 : LgState),
      (lgBuildTableFile binput st1).2.2.next_file_number = st1.next_file_number + 1) := by
  refine ⟨?_, rfl, rfl, rfl, rfl, ?_, ?_⟩
  · unfold lgWriteDescriptor
    rw [if_neg (by simp [hok])]
    by_cases h2 :
        (if env.addRecordStatus ≠ Status.ok then env.addRecordStatus
         else env.closeStatus) ≠ Status.ok
    · rw [if_pos h2]
    · rw [if_neg h2]
      by_cases h3 : env.renameStatus ≠ Status.ok
      · rw [if_pos h3]
      · rw [if_neg h3]
  · intro bffn filenames st0 n hn
    unfold lgFindFiles
    rw [if_neg (by simp)]
    by_cases he : filenames = []
    · subst he; simp [observedNumbers] at hn
    · rw [if_neg he]
      exact foldl_lgFindFilesLoop_observed bffn filenames st0 n hn
  · intro binput st1
    unfold lgBuildTableFile
    by_cases h1 : binput.buildStatus = Status.ok
    · rw [if_pos h1]
      by_cases h2 : binput.fileSize > 0
      · rw [if_pos h2]
      · rw [if_neg h2]
    · rw [if_neg h1]

/-- Claim C2 witness: for the one-table LG (table 1, keys `a@5..b@6`,
`next_file_number = 2`) the successful install writes exactly that edit,
and a directory listing `5.sst` yields `next_file_number > 5`. -/
theorem descriptor_synthesis_fields_witness :
    (lgWriteDescriptor descEnvOk "leveldb.BytewiseComparator" lgOneTable).edit
      = some (buildEdit "leveldb.BytewiseComparator" lgOneTable) ∧
    (buildEdit "leveldb.BytewiseComparator" lgOneTable).lastSequence = 6 ∧
    5 < ((lgFindFiles id Status.ok ["5.sst", "MANIFEST-9", "CURRENT"]
            (lgInit "db/0")).2).next_file_number :=
  ⟨(descriptor_synthesis_fields "leveldb.BytewiseComparator" descEnvOk lgOneTable
      rfl).1,
   by decide,
   (descriptor_synthesis_fields "leveldb.BytewiseComparator" descEnvOk lgOneTable
      rfl).2.2.2.2.2.1 id ["5.sst", "MANIFEST-9", "CURRENT"] (lgInit "db/0") 5
      (by decide)⟩

theorem getLastD_cons {α : Type} :
    ∀ (t : List α) (k x : α), (k :: t).getLast?.getD x = t.getLast?.getD k := by
  intro t
  induction t with
  | nil => intro k x; rfl
  | cons y t' ih =>
    intro k x
    rw [List.getLast?_cons_cons]
    calc (y :: t').getLast?.getD x = t'.getLast?.getD y := ih y x
      _ = (y :: t').getLast?.getD k := (ih y k).symm

theorem foldl_scanStep_maxSeq :
    ∀ (ks : List InternalKeyBytes) (s : ScanLoopState),
      (ks.foldl scanStep s).maxSeq
        = (ks.filterMap parseInternalKey).foldl
            (fun m p => if m < p.sequence then p.sequence else m) s.maxSeq := by
  intro ks
  induction ks with
  | nil => intro s; rfl
  | cons k ks ih =>
    intro s
    cases h : parseInternalKey k with
    | none =>
      simp only [List.foldl, List.filterMap_cons, h, scanStep]
      exact ih s
    | some p =>
      simp only [List.foldl, List.filterMap_cons, h, scanStep]
      exact ih _

theorem foldl_scanStep_id_of_garbage :
    ∀ (ks : List InternalKeyBytes) (s : ScanLoopState),
      ks.filter keyParses = [] → ks.foldl scanStep s = s := by
  intro ks
  induction ks with
  | nil => intro s _; rfl
  | cons k ks ih =>
    intro s hf
    have hk : keyParses k = false := by
      by_contra hc
      have : keyParses k = true := by
        cases hkb : keyParses k
        · exact absurd hkb hc
        · rfl
      simp [List.filter_cons, this] at hf
    have hpk : parseInternalKey k = none := by
      cases hp : parseInternalKey k
      · rfl
      · simp [keyParses, hp] at hk
    have hf' : ks.filter keyParses = [] := by
      simpa [List.filter_cons, hk] using hf
    simp only [List.foldl, scanStep, hpk]
    exact ih s hf'

theorem foldl_scanStep_of_nonempty_start :
    ∀ (ks : List InternalKeyBytes) (s : ScanLoopState), s.empty = false →
      (ks.foldl scanStep s).empty = false ∧
      (ks.foldl scanStep s).smallest = s.smallest ∧
      (ks.foldl scanStep s).largest = (ks.filter keyParses).getLast?.getD s.largest := by
  intro ks
  induction ks with
  | nil => intro s hs; exact ⟨hs, rfl, rfl⟩
  | cons k ks ih =>
    intro s hs
    cases h : parseInternalKey k with
    | none =>
      have hk : keyParses k = false := by simp [keyParses, h]
      simp only [List.foldl, scanStep, h, List.filter_cons, hk]
      exact ih s hs
    | some p =>
      have hk : keyParses k = true := by simp [keyParses, h]
      have hstep : scanStep s k =
          { counter := s.counter + 1, empty := false, smallest := s.smallest,
            largest := k,
            maxSeq := if s.maxSeq < p.sequence then p.sequence else s.maxSeq } := by
        simp [scanStep, h, hs]
      simp only [List.foldl, List.filter_cons, hk, if_pos]
      rw [hstep]
      obtain ⟨h1, h2, h3⟩ := ih
        { counter := s.counter + 1, empty := false, smallest := s.smallest,
          largest := k,
          maxSeq := if s.maxSeq < p.sequence then p.sequence else s.maxSeq } rfl
      refine ⟨h1, h2, ?_⟩
      rw [h3, getLastD_cons]

theorem foldl_scanStep_of_empty_start :
    ∀ (ks : List InternalKeyBytes) (s : ScanLoopState), s.empty = true →
      ks.filter keyParses ≠ [] →
      (ks.foldl scanStep s).empty = false ∧
      (ks.foldl scanStep s).smallest = (ks.filter keyParses).head?.getD s.smallest ∧
      (ks.foldl scanStep s).largest = (ks.filter keyParses).getLast?.getD s.largest := by
  intro ks
  induction ks with
  | nil => intro s _ hne; exact absurd rfl hne
  | cons k ks ih =>
    intro s hs hne
    cases h : parseInternalKey k with
    | none =>
      have hk : keyParses k = false := by simp [keyParses, h]
      have hne' : ks.filter keyParses ≠ [] := by
        simpa [List.filter_cons, hk] using hne
      simp only [List.foldl, scanStep, h, List.filter_cons, hk]
      exact ih s hs hne'
    | some p =>
      have hk : keyParses k = true := by simp [keyParses, h]
      have hstep : scanStep s k =
          { counter := s.counter + 1, empty := false, smallest := k,
            largest := k,
            maxSeq := if s.maxSeq < p.sequence then p.sequence else s.maxSeq } := by
        simp [scanStep, h, hs]
      simp only [List.foldl, List.filter_cons, hk, if_pos]
      rw [hstep]
      obtain ⟨h1, h2, h3⟩ := foldl_scanStep_of_nonempty_start ks
        { counter := s.counter + 1, empty := false, smallest := k, largest := k,
          maxSeq := if s.maxSeq < p.sequence then p.sequence else s.maxSeq } rfl
      refine ⟨h1, ?_, ?_⟩
      · rw [h2]; rfl
      · rw [h3, getLastD_cons]

theorem foldlMax_base_le :
    ∀ (l : List ParsedInternalKey) (m : Nat),
      m ≤ l.foldl (fun m p => if m < p.sequence then p.sequence else m) m := by
  intro l
  induction l with
  | nil => intro m; exact le_refl m
  | cons p l ih =>
    intro m
    simp only [List.foldl]
    by_cases h : m < p.sequence
    · rw [if_pos h]; exact le_trans (le_of_lt h) (ih p.sequence)
    · rw [if_neg h]; exact ih m

theorem foldlMax_mem_le :
    ∀ (l : List ParsedInternalKey) (m : Nat) (p : ParsedInternalKey), p ∈ l →
      p.sequence ≤ l.foldl (fun m p => if m < p.sequence then p.sequence else m) m := by
  intro l
  induction l with
  | nil => intro m p hp; exact absurd hp (List.not_mem_nil p)
  | cons q l ih =>
    intro m p hp
    simp only [List.foldl]
    rcases List.mem_cons.mp hp with rfl | hp'
    · by_cases h : m < p.sequence
      · rw [if_pos h]; exact foldlMax_base_le l p.sequence
      · rw [if_neg h]; exact le_trans (le_of_not_lt h) (foldlMax_base_le l m)
    · exact ih _ p hp'

theorem scanTable_meta_number (si : ScanInput) (n : Nat) :
    (scanTable si n).2.meta.number = n := by
  unfold scanTable
  by_cases h : si.fileSizeStatus ≠ Status.ok
  · rw [if_pos h]
  · rw [if_neg h]

theorem scanTable_empty_corruption (si : ScanInput) (n : Nat)
    (hfs : si.fileSizeStatus = Status.ok) (hit : si.iterStatus = Status.ok)
    (hall : ∀ k ∈ si.keys, parseInternalKey k = none) :
    (scanTable si n).1 = Status.corruption "sst is empty" := by
  have hfil : si.keys.filter keyParses = [] := by
    rw [List.filter_eq_nil_iff]
    intro k hk
    simp [keyParses, hall k hk]
  have hfin : scanFinal si = scanInit :=
    foldl_scanStep_id_of_garbage si.keys scanInit hfil
  unfold scanTable
  rw [if_neg (by simp [hfs])]
  unfold scanVerdict
  rw [hfin]
  simp [hit, scanInit]

theorem extract_foldl_dbname (scanF : Nat → ScanInput) :
    ∀ (nums : List Nat) (st : LgState),
      (nums.foldl (extractMetaDataStep scanF) st).dbname = st.dbname := by
  intro nums
  induction nums with
  | nil => intro st; rfl
  | cons x nums ih =>
    intro st
    rw [List.foldl_cons, ih]
    unfold extractMetaDataStep
    by_cases h : (scanTable (scanF x) x).1 ≠ Status.ok
    · rw [if_pos h]; rfl
    · rw [if_neg h]

theorem extract_foldl_archived_mono (scanF : Nat → ScanInput) :
    ∀ (nums : List Nat) (st : LgState) (x : String),
      x ∈ st.archived → x ∈ (nums.foldl (extractMetaDataStep scanF) st).archived := by
  intro nums
  induction nums with
  | nil => intro st x hx; exact hx
  | cons y nums ih =>
    intro st x hx
    rw [List.foldl_cons]
    apply ih
    unfold extractMetaDataStep
    by_cases h : (scanTable (scanF y) y).1 ≠ Status.ok
    · rw [if_pos h]
      exact List.mem_append_left _ hx
    · rw [if_neg h]
      exact hx

theorem extract_foldl_archives_failed (scanF : Nat → ScanInput) :
    ∀ (nums : List Nat) (st : LgState) (m : Nat), m ∈ nums →
      (scanTable (scanF m) m).1 ≠ Status.ok →
      tableFileName st.dbname m ∈ (nums.foldl (extractMetaDataStep scanF) st).archived := by
  intro nums
  induction nums with
  | nil => intro st m hm; exact absurd hm (List.not_mem_nil m)
  | cons x nums ih =>
    intro st m hm hfail
    rw [List.foldl_cons]
    rcases List.mem_cons.mp hm with rfl | hm'
    · apply extract_foldl_archived_mono
      unfold extractMetaDataStep
      rw [if_pos hfail]
      unfold archiveFile
      exact List.mem_append_right _ (List.mem_singleton.mpr rfl)
    · have hdb : (extractMetaDataStep scanF st x).dbname = st.dbname := by
        unfold extractMetaDataStep
        by_cases h : (scanTable (scanF x) x).1 ≠ Status.ok
        · rw [if_pos h]; rfl
        · rw [if_neg h]
      rw [← hdb]
      exact ih (extractMetaDataStep scanF st x) m hm' hfail

theorem extract_foldl_tables_avoid (scanF : Nat → ScanInput) :
    ∀ (nums : List Nat) (st : LgState) (m : Nat),
      (scanTable (scanF m) m).1 ≠ Status.ok →
      (∀ t ∈ st.tables, t.meta.number ≠ m) →
      ∀ t ∈ (nums.foldl (extractMetaDataStep scanF) st).tables, t.meta.number ≠ m := by
  intro nums
  induction nums with
  | nil => intro st m _ hst t ht; exact hst t ht
  | cons x nums ih =>
    intro st m hfail hst
    rw [List.foldl_cons]
    apply ih _ m hfail
    intro t ht
    unfold extractMetaDataStep at ht
    by_cases h : (scanTable (scanF x) x).1 ≠ Status.ok
    · rw [if_pos h] at ht
      exact hst t ht
    · rw [if_neg h] at ht
      simp only at ht
      rcases List.mem_append.mp ht with ht' | ht'
      · exact hst t ht'
      · have : t = (scanTable (scanF x) x).2 := List.mem_singleton.mp ht'
        subst this

        rw [scanTable_meta_number]
        intro hxm
        subst hxm
        exact h hfail

/-- Claim C5 (confirmed): scanning a table whose iterator yields zero
parseable internal keys fails with `Corruption("sst is empty")`; during
metadata extraction such a table is archived into `lost/` and no entry of
the synthesized descriptor references its number. -/
theorem empty_table_scan_archived (cmp : String) (scanF : Nat → ScanInput)
    (st0 : LgState) (m : Nat)
    (hfs : (scanF m).fileSizeStatus = Status.ok)
    (hit : (scanF m).iterStatus = Status.ok)
    (hall : ∀ k ∈ (scanF m).keys, parseInternalKey k = none)
    (hm : m ∈ st0.table_numbers)
    (hnot : ∀ t ∈ st0.tables, t.meta.number ≠ m) :
    (scanTable (scanF m) m).1 = Status.corruption "sst is empty" ∧
    tableFileName st0.dbname m ∈ (lgExtractMetaData scanF st0).archived ∧
    (∀ t ∈ (lgExtractMetaData scanF st0).tables, t.meta.number ≠ m) ∧
    (∀ f ∈ (buildEdit cmp (lgExtractMetaData scanF st0)).files, f.number ≠ m) := by
  have hscan : (scanTable (scanF m) m).1 = Status.corruption "sst is empty" :=
    scanTable_empty_corruption (scanF m) m hfs hit hall
  have hfail : (scanTable (scanF m) m).1 ≠ Status.ok := by
    rw [hscan]; simp
  have htab : ∀ t ∈ (lgExtractMetaData scanF st0).tables, t.meta.number ≠ m :=
    extract_foldl_tables_avoid scanF st0.table_numbers st0 m hfail hnot
  refine ⟨hscan,
    extract_foldl_archives_failed scanF st0.table_numbers st0 m hm hfail,
    htab, ?_⟩
  intro f hf
  unfold buildEdit at hf
  simp only at hf
  rcases List.mem_map.mp hf with ⟨t, ht, rfl⟩
  exact htab t ht

/-- Claim C5 witness: in the LG that discovered tables 1 and 2, table 2
parses zero keys: its scan fails with `Corruption("sst is empty")` and
`2.sst` is archived. -/
theorem empty_table_scan_archived_witness :
    (scanTable (scanFEmptyTable 2) 2).1 = Status.corruption "sst is empty" ∧
    tableFileName "db/0" 2 ∈ (lgExtractMetaData scanFEmptyTable lgTwoTables).archived :=
  ⟨(empty_table_scan_archived "cmp" scanFEmptyTable lgTwoTables 2 rfl rfl
      (by decide) (by decide) (by decide)).1,
   (empty_table_scan_archived "cmp" scanFEmptyTable lgTwoTables 2 rfl rfl
      (by decide) (by decide) (by decide)).2.1⟩

/-- Claim C6 (confirmed): keys that fail internal-key parsing do not fail
the scan and contribute nothing; a successful scan yields `smallest` the
first parseable key, `largest` the last parseable key, and `max_sequence`
the maximum (here: the code's running fold, which bounds every parseable
key's sequence number) over all parseable keys. -/
theorem table_scan_key_summary (si : ScanInput) (n : Nat)
    (hfs : si.fileSizeStatus = Status.ok) (hit : si.iterStatus = Status.ok)
    (hne : si.keys.filter keyParses ≠ []) :
    (scanTable si n).1 = Status.ok ∧
    (scanTable si n).2.meta.smallest
      = (si.keys.filter keyParses).head?.getD (.garbage "") ∧
    (scanTable si n).2.meta.largest
      = (si.keys.filter keyParses).getLast?.getD (.garbage "") ∧
    (scanTable si n).2.max_sequence
      = (si.keys.filterMap parseInternalKey).foldl
          (fun m p => if m < p.sequence then p.sequence else m) 0 ∧
    (∀ p ∈ si.keys.filterMap parseInternalKey,
       p.sequence ≤ (scanTable si n).2.max_sequence) := by
  obtain ⟨h1, h2, h3⟩ := foldl_scanStep_of_empty_start si.keys scanInit rfl hne
  have hmax : (scanFinal si).maxSeq
      = (si.keys.filterMap parseInternalKey).foldl
          (fun m p => if m < p.sequence then p.sequence else m) 0 :=
    foldl_scanStep_maxSeq si.keys scanInit
  have hsc : scanTable si n
      = (scanVerdict si,
         { meta := { number := n, file_size := si.fileSize,
                     smallest := (scanFinal si).smallest,
                     largest := (scanFinal si).largest },
           max_sequence := (scanFinal si).maxSeq }) := by
    unfold scanTable
    rw [if_neg (by simp [hfs])]
  have hverdict : scanVerdict si = Status.ok := by
    unfold scanVerdict
    have : (scanFinal si).empty = false := h1
    rw [this]
    simp [hit]
  rw [hsc]
  refine ⟨hverdict, h2, h3, hmax, ?_⟩
  intro p hp
  simp only [hmax]
  exact foldlMax_mem_le _ 0 p hp

/-- Claim C6 witness: the iterator yields garbage, then `x@7`, then
`y@9`; the scan succeeds with `smallest = x@7`, `largest = y@9`,
`max_sequence = 9`. -/
theorem table_scan_key_summary_witness :
    (scanTable siMixedKeys 3).1 = Status.ok ∧
    (scanTable siMixedKeys 3).2.meta.smallest
      = .valid { userKey := "x", sequence := 7, kind := 1 } ∧
    (scanTable siMixedKeys 3).2.meta.largest
      = .valid { userKey := "y", sequence := 9, kind := 1 } ∧
    (scanTable siMixedKeys 3).2.max_sequence = 9 :=
  ⟨(table_scan_key_summary siMixedKeys 3 rfl rfl (by decide)).1,
   by
     have h := (table_scan_key_summary siMixedKeys 3 rfl rfl (by decide)).2.1
     rw [h]; decide,
   by
     have h := (table_scan_key_summary siMixedKeys 3 rfl rfl (by decide)).2.2.1
     rw [h]; decide,
   by
     have h := (table_scan_key_summary siMixedKeys 3 rfl rfl (by decide)).2.2.2.1
     rw [h]; decide⟩

theorem insertSubBatches_events_length (seq : Nat) :
    ∀ (bs : List (Option (List Mutation × Nat))) (i : Nat) (sts : List LgState),
      bs.length ≤ sts.length →
      (insertSubBatches seq i sts bs).2.length = bs.countP (fun b => b.isSome) := by
  intro bs
  induction bs with
  | nil => intro i sts _; simp [insertSubBatches]
  | cons b bs ih =>
    intro i sts h
    cases sts with
    | nil => simp at h
    | cons st sts =>
      cases b with
      | none =>
        simp only [insertSubBatches]
        rw [ih (i + 1) sts (by simpa using h)]
        simp [List.countP_cons]
      | some p =>
        obtain ⟨ms, cnt⟩ := p
        simp only [insertSubBatches, List.length_cons]
        rw [ih (i + 1) sts (by simpa using h)]
        simp [List.countP_cons]

theorem lgBatches_length_le (n : Nat) (r : LogRecord) (hn : 0 < n) :
    (lgBatches n r).length ≤ n := by
  by_cases h : n > 1
  · simp [lgBatches, h, separateLocalityGroup]
  · simp [lgBatches, h]; omega

/-- Claim C1 (amended): a decoded record is dropped as a duplicate
exactly when its starting `sequence` is at or below the coordinator's
`last_sequence` — the code compares only `sequence`, not
`sequence + count - 1`; a dropped record changes no repairer, triggers no
insert and leaves `last_sequence` unchanged, while a surviving record
advances `last_sequence` to `sequence + count - 1` and performs one
insert per non-empty sub-batch. -/
theorem duplicate_drop_condition (st : DBState) (r : LogRecord)
    (h12 : 12 ≤ r.size) (hn : 0 < st.repairers.length) :
    (r.seq ≤ st.last_sequence →
      (processRecord st r).repairers = st.repairers ∧
      (processRecord st r).events = st.events ∧
      (processRecord st r).last_sequence = st.last_sequence) ∧
    (st.last_sequence < r.seq →
      (processRecord st r).last_sequence = seqPlusCountM1 r.seq r.count ∧
      (processRecord st r).events.length
        = st.events.length + countInserted st.repairers.length r) := by
  have h1 : ¬ r.size < 12 := by omega
  constructor
  · intro hle
    unfold processRecord
    rw [if_neg h1, if_pos hle]
    exact ⟨rfl, rfl, rfl⟩
  · intro hgt
    have hle : ¬ r.seq ≤ st.last_sequence := by omega
    unfold processRecord
    rw [if_neg h1, if_neg hle]
    refine ⟨rfl, ?_⟩
    simp only [List.length_append]
    rw [insertSubBatches_events_length r.seq _ 0 st.repairers
          (lgBatches_length_le _ r hn)]
    rfl

/-- Claim C1 witness: the record `(sequence 50, count 3)` against
`last_sequence = 51` is dropped without touching any repairer; the record
`(sequence 52, count 3)` survives and advances `last_sequence`. -/
theorem duplicate_drop_condition_witness :
    (processRecord stC rC).repairers = stC.repairers ∧
    (processRecord stC rC2).last_sequence = seqPlusCountM1 52 3 := by
  constructor
  · exact ((duplicate_drop_condition stC rC (by decide) (by decide)).1 (by decide)).1
  · exact ((duplicate_drop_condition stC rC2 (by decide) (by decide)).2 (by decide)).1

/-- Claim C1 counterexample: with `last_sequence = 51`, the decoded
record `(sequence 50, count 3)` satisfies
`sequence + count - 1 = 52 > 51`, so by the claim it must be replayed;
the code drops it as a duplicate: no repairer changes, no insert event is
recorded, and `last_sequence` stays 51. -/
theorem duplicate_drop_claim_false :
    ¬ (rC.seq + rC.count - 1 ≤ stC.last_sequence) ∧
    (processRecord stC rC).repairers = stC.repairers ∧
    (processRecord stC rC).events = [] ∧
    (processRecord stC rC).last_sequence = 51 := by
  refine ⟨by decide, by decide, by decide, by decide⟩

theorem foldl_dbFindFilesLoop_logfiles :
    ∀ (files : List String) (st : DBState),
      (files.foldl dbFindFilesLoop st).logfiles
        = st.logfiles ++ files.filterMap parseLogNumber := by
  intro files
  induction files with
  | nil => intro st; simp
  | cons f fs ih =>
    intro st
    rw [List.foldl_cons, ih]
    cases hp : parseFileName f with
    | none =>
      have hl : parseLogNumber f = none := by simp [parseLogNumber, hp]
      simp [dbFindFilesLoop, hp, List.filterMap_cons, hl]
    | some p =>
      obtain ⟨n, ty⟩ := p
      cases ty with
      | logFile =>
        have hl : parseLogNumber f = some n := by simp [parseLogNumber, hp]
        simp [dbFindFilesLoop, hp, List.filterMap_cons, hl]
      | tableFile =>
        have hl : parseLogNumber f = none := by simp [parseLogNumber, hp]
        simp [dbFindFilesLoop, hp, List.filterMap_cons, hl]
      | descriptorFile =>
        have hl : parseLogNumber f = none := by simp [parseLogNumber, hp]
        simp [dbFindFilesLoop, hp, List.filterMap_cons, hl]
      | currentFile =>
        have hl : parseLogNumber f = none := by simp [parseLogNumber, hp]
        simp [dbFindFilesLoop, hp, List.filterMap_cons, hl]
      | tempFile =>
        have hl : parseLogNumber f = none := by simp [parseLogNumber, hp]
        simp [dbFindFilesLoop, hp, List.filterMap_cons, hl]

theorem processRecord_recordsSeen (st : DBState) (r : LogRecord) :
    (processRecord st r).recordsSeen = st.recordsSeen ++ [r] := by
  unfold processRecord
  split_ifs <;> rfl

theorem foldl_processRecord_recordsSeen :
    ∀ (rs : List LogRecord) (st : DBState),
      (rs.foldl processRecord st).recordsSeen = st.recordsSeen ++ rs := by
  intro rs
  induction rs with
  | nil => intro st; simp
  | cons r rs ih =>
    intro st
    rw [List.foldl_cons, ih, processRecord_recordsSeen]
    simp

theorem dbConvertLogToTable_recordsSeen (le : LogEnv) (st : DBState) :
    (dbConvertLogToTable le st).2.recordsSeen
      = st.recordsSeen ++ (if le.openStatus = Status.ok then le.records else []) := by
  unfold dbConvertLogToTable
  by_cases h : le.openStatus ≠ Status.ok
  · rw [if_pos h, if_neg (by simpa using h)]
    simp
  · push_neg at h
    rw [if_neg (by simp [h]), if_pos h]
    exact foldl_processRecord_recordsSeen le.records st

theorem dbConvertLogs_recordsSeen (envF : Nat → LogEnv) :
    ∀ (logs : List Nat) (st : DBState),
      (dbConvertLogs envF logs st).recordsSeen
        = st.recordsSeen ++
          (logs.map (fun log =>
            if (envF log).openStatus = Status.ok then (envF log).records else [])).flatten := by
  intro logs
  induction logs with
  | nil => intro st; simp [dbConvertLogs]
  | cons log rest ih =>
    intro st
    simp only [dbConvertLogs]
    rw [ih]
    have hseen :
        ({ (dbConvertLogToTable (envF log) st).2 with
            dbArchivedLogs :=
              (dbConvertLogToTable (envF log) st).2.dbArchivedLogs ++ [log] } :
          DBState).recordsSeen
          = (dbConvertLogToTable (envF log) st).2.recordsSeen := rfl
    rw [hseen, dbConvertLogToTable_recordsSeen]
    simp [List.append_assoc]

/-- Claim C7 (amended): WAL files are replayed in the order the root
directory enumeration returned them — `logfiles_` preserves the
`GetChildren` order and is never sorted, so the order is ascending only
if the enumeration happens to be; within each WAL, records are replayed
in physical order. -/
theorem wal_replay_order (bffn : Nat → Nat) (lgFilesF : Nat → Status × List String)
    (rootFiles : List String) (st : DBState) (hne : rootFiles ≠ []) :
    (dbFindFiles bffn Status.ok rootFiles lgFilesF st).2.logfiles
      = st.logfiles ++ rootFiles.filterMap parseLogNumber ∧
    (∀ (envF : Nat → LogEnv) (st2 : DBState),
      (dbConvertLogFilesToTables envF st2).recordsSeen
        = st2.recordsSeen ++
          (st2.logfiles.map (fun log =>
            if (envF log).openStatus = Status.ok then (envF log).records else [])).flatten) := by
  constructor
  · unfold dbFindFiles
    rw [if_neg (by simp), if_neg hne]
    exact foldl_dbFindFilesLoop_logfiles rootFiles st
  · intro envF st2
    exact dbConvertLogs_recordsSeen envF st2.logfiles st2

/-- Claim C7 witness: enumerating `["2.log", "1.log"]` puts the WAL
numbers into `logfiles_` in exactly that order, and the replay reads each
WAL's records in physical order. -/
theorem wal_replay_order_witness :
    (dbFindFiles id Status.ok rootUnsorted (fun _ => (Status.ok, [])) stFresh).2.logfiles
      = stFresh.logfiles ++ rootUnsorted.filterMap parseLogNumber ∧
    (dbConvertLogFilesToTables logEnvByNumber stAfterFind).recordsSeen
      = stAfterFind.recordsSeen ++
        (stAfterFind.logfiles.map (fun log =>
          if (logEnvByNumber log).openStatus = Status.ok then (logEnvByNumber log).records
          else [])).flatten :=
  ⟨(wal_replay_order id (fun _ => (Status.ok, [])) rootUnsorted stFresh
      (by decide)).1,
   (wal_replay_order id (fun _ => (Status.ok, [])) rootUnsorted stFresh
      (by decide)).2 logEnvByNumber stAfterFind⟩

/-- Claim C7 counterexample: when `GetChildren` enumerates
`["2.log", "1.log"]`, `logfiles_` is `[2, 1]` — not sorted ascending —
and the replay reads WAL 2's record (sequence 20) before WAL 1's record
(sequence 10), so WALs are not replayed in ascending file-number order. -/
theorem wal_replay_order_claim_false :
    stAfterFind.logfiles = [2, 1] ∧
    ¬ List.Sorted (· ≤ ·) stAfterFind.logfiles ∧
    (dbConvertLogFilesToTables logEnvByNumber stAfterFind).recordsSeen
      = [recLog2, recLog1] ∧
    recLog2.seq = 20 ∧ recLog1.seq = 10 := by
  refine ⟨by decide, by decide, by decide, rfl, rfl⟩

theorem seqPlusCountM1_eq (s c : Nat) (h1 : 1 ≤ s) (h2 : s + c ≤ u64) :
    seqPlusCountM1 s c = s + c - 1 := by
  have hu : u64 = 18446744073709551616 := rfl
  unfold seqPlusCountM1
  rw [hu] at h2 ⊢
  have h3 : s + c + (18446744073709551616 - 1)
      = (s + c - 1) + 18446744073709551616 := by omega
  rw [h3, Nat.add_mod_right]
  exact Nat.mod_eq_of_lt (by omega)

theorem insertSubBatches_spec (seq K L : Nat) (h3 : L < seq) (h4 : seq + K ≤ u64) :
    ∀ (bs : List (Option (List Mutation × Nat))) (i : Nat) (sts : List LgState),
      (∀ b ∈ bs, ∀ ms cnt, b = some (ms, cnt) → cnt ≤ K) →
      (∀ st ∈ sts, st.max_sequence ≤ L) →
      (∀ st1 ∈ (insertSubBatches seq i sts bs).1, st1.max_sequence ≤ seq + K - 1) ∧
      (∀ e ∈ (insertSubBatches seq i sts bs).2,
        e.entryMaxSequence < e.batchSeq ∧
        e.exitMaxSequence = e.batchSeq + e.batchCount - 1) := by
  intro bs
  induction bs with
  | nil =>
    intro i sts _ h2
    constructor
    · intro st1 hst1
      simp only [insertSubBatches] at hst1
      exact le_trans (h2 st1 hst1) (by omega)
    · intro e he
      simp only [insertSubBatches] at he
      exact absurd he (List.not_mem_nil e)
  | cons b bs ih =>
    intro i sts h1 h2
    cases sts with
    | nil =>
      constructor
      · intro st1 h
        simp only [insertSubBatches] at h
        exact absurd h (List.not_mem_nil st1)
      · intro e h
        simp only [insertSubBatches] at h
        exact absurd h (List.not_mem_nil e)
    | cons st sts =>
      have h1' : ∀ b1 ∈ bs, ∀ ms cnt, b1 = some (ms, cnt) → cnt ≤ K :=
        fun b1 hb1 => h1 b1 (List.mem_cons_of_mem _ hb1)
      have h2' : ∀ x ∈ sts, x.max_sequence ≤ L :=
        fun x hx => h2 x (List.mem_cons_of_mem _ hx)
      cases b with
      | none =>
        obtain ⟨ihs, ihe⟩ := ih (i + 1) sts h1' h2'
        constructor
        · intro st1 hst1
          simp only [insertSubBatches] at hst1
          rcases List.mem_cons.mp hst1 with rfl | h'
          · exact le_trans (h2 st1 (List.mem_cons_self _ _)) (by omega)
          · exact ihs st1 h'
        · intro e he
          simp only [insertSubBatches] at he
          exact ihe e he
      | some p =>
        obtain ⟨ms, cnt⟩ := p
        have hcnt : cnt ≤ K := h1 _ (List.mem_cons_self _ _) ms cnt rfl
        have hmax : (lgInsertMemTable st ms cnt seq).max_sequence = seq + cnt - 1 := by
          unfold lgInsertMemTable
          exact seqPlusCountM1_eq seq cnt (by omega) (by omega)
        obtain ⟨ihs, ihe⟩ := ih (i + 1) sts h1' h2'
        constructor
        · intro st1 hst1
          simp only [insertSubBatches] at hst1
          rcases List.mem_cons.mp hst1 with rfl | h'
          · rw [hmax]; omega
          · exact ihs st1 h'
        · intro e he
          simp only [insertSubBatches] at he
          rcases List.mem_cons.mp he with rfl | h'
          · constructor
            · exact lt_of_le_of_lt (h2 st (List.mem_cons_self _ _)) h3
            · simp only [hmax]
          · exact ihe e h'

theorem lgBatches_counts (n : Nat) (r : LogRecord)
    (hwf : r.count = r.mutations.length) :
    ∀ b ∈ lgBatches n r, ∀ ms cnt, b = some (ms, cnt) → cnt ≤ r.count := by
  intro b hb ms cnt hbe
  by_cases hgt : n > 1
  · simp only [lgBatches, if_pos hgt] at hb
    rcases List.mem_map.mp hb with ⟨a, ha, rfl⟩
    cases a with
    | none => simp at hbe
    | some ms0 =>
      simp only [Option.map] at hbe
      have hms : ms0 = ms ∧ ms0.length = cnt := by
        have := Option.some.inj hbe
        exact ⟨congrArg Prod.fst this, congrArg Prod.snd this⟩
      simp only [separateLocalityGroup] at ha
      rcases List.mem_map.mp ha with ⟨j, _, heq⟩
      by_cases hf : r.mutations.filter (fun m => m.lg = j) = []
      · simp only [hf, if_pos rfl] at heq
        exact absurd heq (by simp)
      · simp only [if_neg hf] at heq
        have hms0 : r.mutations.filter (fun m => m.lg = j) = ms0 :=
          Option.some.inj heq
        rw [← hms.2, ← hms0, hwf]
        exact List.length_filter_le _ _
  · simp only [lgBatches, if_neg hgt] at hb
    have : b = some (r.mutations, r.count) := List.mem_singleton.mp hb
    rw [this] at hbe
    have := Option.some.inj hbe
    have hc : r.count = cnt := congrArg Prod.snd this
    omega

theorem processRecord_preserves (st : DBState) (r : LogRecord)
    (hwf : r.count = r.mutations.length ∧ r.seq + r.count ≤ u64)
    (hinv : ReplayInv st) (hev : EventsCertified st.events) :
    ReplayInv (processRecord st r) ∧ EventsCertified (processRecord st r).events := by
  by_cases h1 : r.size < 12
  · unfold processRecord
    rw [if_pos h1]
    exact ⟨hinv, hev⟩
  · by_cases h2 : r.seq ≤ st.last_sequence
    · unfold processRecord
      rw [if_neg h1, if_pos h2]
      exact ⟨hinv, hev⟩
    · have hgt : st.last_sequence < r.seq := by omega
      obtain ⟨hs, he⟩ := insertSubBatches_spec r.seq r.count st.last_sequence hgt hwf.2
        (lgBatches st.repairers.length r) 0 st.repairers
        (lgBatches_counts st.repairers.length r hwf.1) hinv
      have hlast : seqPlusCountM1 r.seq r.count = r.seq + r.count - 1 :=
        seqPlusCountM1_eq r.seq r.count (by omega) hwf.2
      constructor
      · intro lg hlg
        unfold processRecord at hlg
        rw [if_neg h1, if_neg h2] at hlg
        simp only at hlg
        have := hs lg hlg
        unfold processRecord
        rw [if_neg h1, if_neg h2]
        simp only
        omega
      · intro e hein
        unfold processRecord at hein
        rw [if_neg h1, if_neg h2] at hein
        simp only at hein
        rcases List.mem_append.mp hein with h' | h'
        · exact hev e h'
        · exact he e h'

theorem foldl_processRecord_preserves :
    ∀ (rs : List LogRecord) (st : DBState),
      (∀ r ∈ rs, r.count = r.mutations.length ∧ r.seq + r.count ≤ u64) →
      ReplayInv st → EventsCertified st.events →
      ReplayInv (rs.foldl processRecord st) ∧
      EventsCertified (rs.foldl processRecord st).events := by
  intro rs
  induction rs with
  | nil => intro st _ hinv hev; exact ⟨hinv, hev⟩
  | cons r rs ih =>
    intro st hwf hinv hev
    rw [List.foldl_cons]
    obtain ⟨hinv', hev'⟩ :=
      processRecord_preserves st r (hwf r (List.mem_cons_self _ _)) hinv hev
    exact ih (processRecord st r) (fun x hx => hwf x (List.mem_cons_of_mem _ hx))
      hinv' hev'

theorem flushLg_max_sequence (le : LogEnv) (i : Nat) (st : LgState) :
    (flushLg le i st).max_sequence = st.max_sequence := by
  simp only [flushLg, lgBuildTableFile, lgAddTableMeta, archiveFile]
  split_ifs <;> rfl

theorem dbConvertFlush_max_sequence (le : LogEnv) :
    ∀ (sts : List LgState) (i : Nat),
      ∀ lg1 ∈ dbConvertFlush le i sts, ∃ lg ∈ sts, lg1.max_sequence = lg.max_sequence := by
  intro sts
  induction sts with
  | nil => intro i lg1 h; simp [dbConvertFlush] at h
  | cons st sts ih =>
    intro i lg1 h
    simp only [dbConvertFlush] at h
    rcases List.mem_cons.mp h with rfl | h'
    · exact ⟨st, List.mem_cons_self _ _, flushLg_max_sequence le i st⟩
    · obtain ⟨lg, hlg, heq⟩ := ih (i + 1) lg1 h'
      exact ⟨lg, List.mem_cons_of_mem _ hlg, heq⟩

theorem dbConvertLogToTable_preserves (le : LogEnv) (st : DBState)
    (hwf : ∀ r ∈ le.records, r.count = r.mutations.length ∧ r.seq + r.count ≤ u64)
    (hinv : ReplayInv st) (hev : EventsCertified st.events) :
    ReplayInv (dbConvertLogToTable le st).2 ∧
    EventsCertified (dbConvertLogToTable le st).2.events := by
  unfold dbConvertLogToTable
  by_cases h : le.openStatus ≠ Status.ok
  · rw [if_pos h]
    exact ⟨hinv, hev⟩
  · rw [if_neg h]
    obtain ⟨hinv', hev'⟩ := foldl_processRecord_preserves le.records st hwf hinv hev
    constructor
    · intro lg hlg
      simp only at hlg
      obtain ⟨lg0, hlg0, heq⟩ :=
        dbConvertFlush_max_sequence le (le.records.foldl processRecord st).repairers 0
          lg hlg
      simp only
      rw [heq]
      exact hinv' lg0 hlg0
    · exact hev'

theorem dbConvertLogs_preserves (envF : Nat → LogEnv) :
    ∀ (logs : List Nat) (st : DBState),
      (∀ log ∈ logs, ∀ r ∈ (envF log).records,
        r.count = r.mutations.length ∧ r.seq + r.count ≤ u64) →
      ReplayInv st → EventsCertified st.events →
      ReplayInv (dbConvertLogs envF logs st) ∧
      EventsCertified (dbConvertLogs envF logs st).events := by
  intro logs
  induction logs with
  | nil => intro st _ hinv hev; exact ⟨hinv, hev⟩
  | cons log rest ih =>
    intro st hwf hinv hev
    simp only [dbConvertLogs]
    obtain ⟨hinv', hev'⟩ :=
      dbConvertLogToTable_preserves (envF log) st (hwf log (List.mem_cons_self _ _))
        hinv hev
    have harch :
        ReplayInv ({ (dbConvertLogToTable (envF log) st).2 with
          dbArchivedLogs :=
            (dbConvertLogToTable (envF log) st).2.dbArchivedLogs ++ [log] }) := by
      intro lg hlg
      exact hinv' lg hlg
    exact ih _ (fun x hx => hwf x (List.mem_cons_of_mem _ hx)) harch hev'

theorem maxOfLgs_ge :
    ∀ (lgs : List LgState) (base : Nat),
      (∀ lg ∈ lgs, lg.max_sequence ≤ maxOfLgs base lgs) ∧ base ≤ maxOfLgs base lgs := by
  intro lgs
  induction lgs with
  | nil =>
    intro base
    exact ⟨fun lg h => absurd h (List.not_mem_nil lg), le_refl base⟩
  | cons lg0 lgs ih =>
    intro base
    have hstep : maxOfLgs base (lg0 :: lgs)
        = maxOfLgs (if base < lg0.max_sequence then lg0.max_sequence else base) lgs := rfl
    obtain ⟨ihm, ihb⟩ := ih (if base < lg0.max_sequence then lg0.max_sequence else base)
    constructor
    · intro lg hlg
      rcases List.mem_cons.mp hlg with rfl | h'
      · rw [hstep]
        exact le_trans (by split_ifs <;> omega) ihb
      · rw [hstep]
        exact ihm lg h'
    · rw [hstep]
      exact le_trans (by split_ifs <;> omega) ihb

theorem dbExtractMetaData_inv (scanF : Nat → Nat → ScanInput) (st : DBState) :
    ReplayInv (dbExtractMetaData scanF st) ∧
    (dbExtractMetaData scanF st).events = st.events ∧
    (dbExtractMetaData scanF st).logfiles = st.logfiles := by
  refine ⟨?_, rfl, rfl⟩
  intro lg hlg
  exact (maxOfLgs_ge (dbExtractLgs scanF 0 st.repairers) st.last_sequence).1 lg hlg

/-- Claim C4 (confirmed): starting from any coordinator state whose
`last_sequence_` has been raised by `ExtractMetaData` to cover every LG's
table-scan `max_sequence_`, replaying all WALs — with the coordinator's
duplicate check in force and every decoded batch's `count` header
matching its mutations — makes every `InsertMemTable` call satisfy the
assertion `batch_seq > max_sequence_` at entry and leave
`max_sequence_ = batch_seq + count - 1` at exit. -/
theorem insert_memtable_sequence_monotone (scanF : Nat → Nat → ScanInput)
    (envF : Nat → LogEnv) (st0 : DBState) (hev : st0.events = [])
    (hwf : ∀ log ∈ st0.logfiles, ∀ r ∈ (envF log).records,
      r.count = r.mutations.length ∧ r.seq + r.count ≤ u64) :
    ∀ e ∈ (dbConvertLogFilesToTables envF (dbExtractMetaData scanF st0)).events,
      e.entryMaxSequence < e.batchSeq ∧
      e.exitMaxSequence = e.batchSeq + e.batchCount - 1 := by
  obtain ⟨hinv, hevq, hlogs⟩ := dbExtractMetaData_inv scanF st0
  have hev0 : EventsCertified (dbExtractMetaData scanF st0).events := by
    rw [hevq, hev]
    intro e he
    exact absurd he (List.not_mem_nil e)
  have hwf' : ∀ log ∈ (dbExtractMetaData scanF st0).logfiles,
      ∀ r ∈ (envF log).records,
        r.count = r.mutations.length ∧ r.seq + r.count ≤ u64 := by
    rw [hlogs]; exact hwf
  exact (dbConvertLogs_preserves envF (dbExtractMetaData scanF st0).logfiles
      (dbExtractMetaData scanF st0) hwf' hinv hev0).2

/-- Claim C4 witness: one LG, one WAL with the record `(sequence 5,
count 1)` replayed from a fresh state: the single `InsertMemTable` call
sees `max_sequence_ = 0 < 5` at entry and leaves `max_sequence_ = 5`. -/
theorem insert_memtable_sequence_monotone_witness :
    ({ lg := 0, batchSeq := 5, entryMaxSequence := 0, exitMaxSequence := 5,
       batchCount := 1 } : InsertEvent) ∈
      (dbConvertLogFilesToTables logEnvSeq5
        (dbExtractMetaData (fun _ _ => scanTrivial) stOneLog)).events ∧
    (({ lg := 0, batchSeq := 5, entryMaxSequence := 0, exitMaxSequence := 5,
        batchCount := 1 } : InsertEvent).entryMaxSequence <
      ({ lg := 0, batchSeq := 5, entryMaxSequence := 0, exitMaxSequence := 5,
         batchCount := 1 } : InsertEvent).batchSeq ∧
     ({ lg := 0, batchSeq := 5, entryMaxSequence := 0, exitMaxSequence := 5,
        batchCount := 1 } : InsertEvent).exitMaxSequence =
      ({ lg := 0, batchSeq := 5, entryMaxSequence := 0, exitMaxSequence := 5,
         batchCount := 1 } : InsertEvent).batchSeq +
        ({ lg := 0, batchSeq := 5, entryMaxSequence := 0, exitMaxSequence := 5,
           batchCount := 1 } : InsertEvent).batchCount - 1) :=
  ⟨by decide,
   insert_memtable_sequence_monotone (fun _ _ => scanTrivial) logEnvSeq5 stOneLog
     rfl (by decide)
     { lg := 0, batchSeq := 5, entryMaxSequence := 0, exitMaxSequence := 5,
       batchCount := 1 }
     (by decide)⟩

end LevelDBRepair
